import Mathlib

/-!
Verification of the codec-parser streaming demuxer (TypeScript source)
against its natural-language specification.

The development shallowly embeds the relevant parts of the source:
bytes are `Nat` values below 256, byte buffers are `List Nat`, JavaScript
32-bit bitwise operations are modelled with `Nat` bitwise operations plus
explicit `% 2 ^ w` masking exactly where the source stores into a
`Uint16Array` or `Uint32Array`.  Generator-based control flow is modelled
as explicit state machines driven with fuel.
-/

set_option maxRecDepth 40000

namespace CodecSpec

/-! ## Bitwise toolkit

General facts about `Nat` bitwise operations used to reason about the
CRC implementations in `src/utilities.ts`. -/

theorem xor_shiftLeft_dist (a b n : Nat) :
    (a ^^^ b) <<< n = (a <<< n) ^^^ (b <<< n) := by
  apply Nat.eq_of_testBit_eq
  intro i
  simp [Nat.testBit_shiftLeft, Nat.testBit_xor]
  cases Decidable.em (i ≥ n) with
  | inl h => simp [h]
  | inr h => simp [h]

theorem xor_shiftRight_dist (a b n : Nat) :
    (a ^^^ b) >>> n = (a >>> n) ^^^ (b >>> n) := by
  apply Nat.eq_of_testBit_eq
  intro i
  simp [Nat.testBit_shiftRight, Nat.testBit_xor]

theorem xor_and_dist (a b m : Nat) :
    (a ^^^ b) &&& m = (a &&& m) ^^^ (b &&& m) := by
  apply Nat.eq_of_testBit_eq
  intro i
  simp [Nat.testBit_and, Nat.testBit_xor]
  cases a.testBit i <;> cases b.testBit i <;> cases m.testBit i <;> rfl

theorem xor_mod_two_pow (a b n : Nat) :
    (a ^^^ b) % 2 ^ n = (a % 2 ^ n) ^^^ (b % 2 ^ n) := by
  apply Nat.eq_of_testBit_eq
  intro i
  simp [Nat.testBit_mod_two_pow, Nat.testBit_xor]
  cases Decidable.em (i < n) with
  | inl h => simp [h]
  | inr h => simp [h]

theorem mod_two_pow_of_lt {a n : Nat} (h : a < 2 ^ n) : a % 2 ^ n = a :=
  Nat.mod_eq_of_lt h

theorem shiftLeft_and_mask_zero (x n : Nat) :
    (x <<< n) &&& (2 ^ n - 1) = 0 := by
  apply Nat.eq_of_testBit_eq
  intro i
  simp [Nat.testBit_and, Nat.testBit_shiftLeft, Nat.testBit_two_pow_sub_one]
  intro h _
  omega

theorem shiftLeft_shiftRight_self (x n : Nat) : (x <<< n) >>> n = x := by
  rw [Nat.shiftLeft_eq, Nat.shiftRight_eq_div_pow]
  exact Nat.mul_div_cancel x (Nat.pos_pow_of_pos n (by norm_num))

theorem and_mask_eq_mod (x n : Nat) : x &&& (2 ^ n - 1) = x % 2 ^ n := by
  apply Nat.eq_of_testBit_eq
  intro i
  simp [Nat.testBit_and, Nat.testBit_mod_two_pow, Nat.testBit_two_pow_sub_one,
    Bool.and_comm]

/-- Split a value below `2 ^ (n + m)` into its high and low parts via XOR. -/
theorem xor_decompose (x n : Nat) :
    x = ((x >>> n) <<< n) ^^^ (x % 2 ^ n) := by
  apply Nat.eq_of_testBit_eq
  intro i
  simp [Nat.testBit_xor, Nat.testBit_shiftLeft, Nat.testBit_shiftRight,
    Nat.testBit_mod_two_pow]
  cases Decidable.em (i < n) with
  | inl h =>
    have : ¬ (i ≥ n) := by omega
    simp [h, this]
  | inr h =>
    have hge : i ≥ n := by omega
    simp [h, hge, Nat.add_sub_cancel' hge]

theorem shiftRight_lt {x n w : Nat} (h : x < 2 ^ (n + w)) : x >>> n < 2 ^ w := by
  rw [Nat.shiftRight_eq_div_pow]
  apply Nat.div_lt_of_lt_mul
  calc x < 2 ^ (n + w) := h
  _ = 2 ^ n * 2 ^ w := by rw [Nat.pow_add]

theorem mod_two_pow_lt (x n : Nat) : x % 2 ^ n < 2 ^ n :=
  Nat.mod_lt _ (Nat.pos_pow_of_pos n (by norm_num))

theorem shiftLeft_lt {x n w : Nat} (h : x < 2 ^ w) : x <<< n < 2 ^ (w + n) := by
  rw [Nat.shiftLeft_eq, Nat.pow_add]
  exact Nat.mul_lt_mul_of_lt_of_le h (Nat.le_refl _) (Nat.pos_pow_of_pos n (by norm_num))

theorem xor_left_comm (a b c : Nat) : a ^^^ (b ^^^ c) = b ^^^ (a ^^^ c) := by
  rw [← Nat.xor_assoc, Nat.xor_comm a b, Nat.xor_assoc]

/-! ## CRC implementations (src/utilities.ts)

`flacCrc16` and `crc32` are the 16-slice table-driven implementations.
The tables are generated exactly as in `getCrcTable` and the
`// build crc tables` loop; storing into a `Uint16Array`/`Uint32Array`
masks the stored value, which is modelled by `% 2 ^ 16` / `% 2 ^ 32`. -/

/-- One bit step of the FLAC CRC-16 generator from `getCrcTable`:
`(crc << 1) ^ (crc & (1 << 15) ? 0x8005 : 0)` (unmasked, as in the source). -/
def flacCrc16BitStep (crc : Nat) : Nat :=
  (crc <<< 1) ^^^ (if crc &&& 0x8000 ≠ 0 then 0x8005 else 0)

/-- Slice 0 of the FLAC CRC-16 table: initial value `b << 8`, eight bit
steps, stored into a `Uint16Array`. -/
def flacCrc16Table0 (b : Nat) : Nat := (flacCrc16BitStep^[8] (b <<< 8)) % 65536

/-- The sliced FLAC CRC-16 tables: slice `i + 1` is
`table0[tableI[j] >>> 8] ^ (tableI[j] << 8)` stored into a `Uint16Array`. -/
def flacCrc16Table : Nat → Nat → Nat
  | 0, b => flacCrc16Table0 b
  | i + 1, b =>
    (flacCrc16Table0 (flacCrc16Table i b >>> 8) ^^^ (flacCrc16Table i b <<< 8)) % 65536

/-- The byte-at-a-time tail loop of `flacCrc16`:
`crc = ((crc & 0xff) << 8) ^ flacCrc16Table[0][(crc >> 8) ^ data[i++]]`. -/
def flacCrc16Tail (crc : Nat) : List Nat → Nat
  | [] => crc
  | b :: rest =>
    flacCrc16Tail (((crc &&& 0xff) <<< 8) ^^^ flacCrc16Table 0 ((crc >>> 8) ^^^ b)) rest

/-- The 16-byte slice loop of `flacCrc16`: runs while `i <= dataLength - 16`
(i.e. while at least 16 bytes remain), then falls through to the tail loop. -/
def flacCrc16Slice (crc : Nat) : List Nat → Nat
  | b0 :: b1 :: b2 :: b3 :: b4 :: b5 :: b6 :: b7 ::
      b8 :: b9 :: b10 :: b11 :: b12 :: b13 :: b14 :: b15 :: rest =>
    flacCrc16Slice
      (flacCrc16Table 15 ((crc ^^^ ((b0 <<< 8) ||| b1)) >>> 8) ^^^
        flacCrc16Table 14 ((crc ^^^ ((b0 <<< 8) ||| b1)) &&& 0xff) ^^^
        flacCrc16Table 13 b2 ^^^
        flacCrc16Table 12 b3 ^^^
        flacCrc16Table 11 b4 ^^^
        flacCrc16Table 10 b5 ^^^
        flacCrc16Table 9 b6 ^^^
        flacCrc16Table 8 b7 ^^^
        flacCrc16Table 7 b8 ^^^
        flacCrc16Table 6 b9 ^^^
        flacCrc16Table 5 b10 ^^^
        flacCrc16Table 4 b11 ^^^
        flacCrc16Table 3 b12 ^^^
        flacCrc16Table 2 b13 ^^^
        flacCrc16Table 1 b14 ^^^
        flacCrc16Table 0 b15) rest
  | rest => flacCrc16Tail crc rest

/-- `flacCrc16` from `src/utilities.ts` (16-slice table-driven). -/
def flacCrc16 (data : List Nat) : Nat := flacCrc16Slice 0 data

/-- Byte-by-byte reference CRC-16: polynomial `0x8005`, init 0, MSB first,
big-endian byte injection, state kept to 16 bits. -/
def flacCrc16RefBitStep (crc : Nat) : Nat :=
  ((crc <<< 1) ^^^ (if crc &&& 0x8000 ≠ 0 then 0x8005 else 0)) % 65536

/-- One reference byte step: inject the byte into the high 8 bits, then
run eight bit steps. -/
def flacCrc16RefByteStep (crc b : Nat) : Nat :=
  flacCrc16RefBitStep^[8] (crc ^^^ (b <<< 8))

/-- Byte-by-byte reference FLAC CRC-16 of a byte list. -/
def flacCrc16Ref (data : List Nat) : Nat :=
  data.foldl flacCrc16RefByteStep 0

/-- One bit step of the reflected CRC-32 generator from `getCrcTable`:
`(crc >>> 1) ^ ((crc & 1) * 0xedb88320)`. -/
def crc32BitStep (crc : Nat) : Nat :=
  (crc >>> 1) ^^^ ((crc &&& 1) * 0xedb88320)

/-- Slice 0 of the CRC-32 table: initial value `b`, eight bit steps,
stored into a `Uint32Array`. -/
def crc32Table0 (b : Nat) : Nat := (crc32BitStep^[8] b) % 4294967296

/-- The sliced CRC-32 tables: slice `i + 1` is
`(tableI[j] >>> 8) ^ table0[tableI[j] & 0xff]` stored into a `Uint32Array`. -/
def crc32Table : Nat → Nat → Nat
  | 0, b => crc32Table0 b
  | i + 1, b =>
    ((crc32Table i b >>> 8) ^^^ crc32Table0 (crc32Table i b &&& 0xff)) % 4294967296

/-- The byte-at-a-time tail loop of `crc32`:
`crc = crc32Table[0][(crc ^ data[i++]) & 0xff] ^ (crc >>> 8)`. -/
def crc32Tail (crc : Nat) : List Nat → Nat
  | [] => crc
  | b :: rest =>
    crc32Tail (crc32Table 0 ((crc ^^^ b) &&& 0xff) ^^^ (crc >>> 8)) rest

/-- The 16-byte slice loop of `crc32`. -/
def crc32Slice (crc : Nat) : List Nat → Nat
  | b0 :: b1 :: b2 :: b3 :: b4 :: b5 :: b6 :: b7 ::
      b8 :: b9 :: b10 :: b11 :: b12 :: b13 :: b14 :: b15 :: rest =>
    crc32Slice
      (0 ^^^
        crc32Table 15 ((b0 ^^^ crc) &&& 0xff) ^^^
        crc32Table 14 ((b1 ^^^ (crc >>> 8)) &&& 0xff) ^^^
        crc32Table 13 ((b2 ^^^ (crc >>> 16)) &&& 0xff) ^^^
        crc32Table 12 (b3 ^^^ (crc >>> 24)) ^^^
        crc32Table 11 b4 ^^^
        crc32Table 10 b5 ^^^
        crc32Table 9 b6 ^^^
        crc32Table 8 b7 ^^^
        crc32Table 7 b8 ^^^
        crc32Table 6 b9 ^^^
        crc32Table 5 b10 ^^^
        crc32Table 4 b11 ^^^
        crc32Table 3 b12 ^^^
        crc32Table 2 b13 ^^^
        crc32Table 1 b14 ^^^
        crc32Table 0 b15) rest
  | rest => crc32Tail crc rest

/-- `crc32` from `src/utilities.ts` (16-slice table-driven); the final
`crc ^ -1` is the 32-bit complement, modelled as `^^^ 0xffffffff`. -/
def crc32 (data : List Nat) : Nat := crc32Slice 0 data ^^^ 0xffffffff

/-- One reference byte step of the reflected CRC-32: XOR the byte into the
low 8 bits, then run eight bit steps. -/
def crc32RefByteStep (crc b : Nat) : Nat :=
  crc32BitStep^[8] (crc ^^^ b)

/-- Byte-by-byte reference reflected CRC-32 (polynomial `0xEDB88320`,
init 0 then final XOR with `0xFFFFFFFF`, matching the source's
init/final convention). -/
def crc32Ref (data : List Nat) : Nat :=
  data.foldl crc32RefByteStep 0 ^^^ 0xffffffff

/-- `concatBuffers` from `src/utilities.ts` is byte-list concatenation. -/
def concatBuffers (a b : List Nat) : List Nat := a ++ b

/-! ## Equivalence of the sliced FLAC CRC-16 with the bytewise reference -/

theorem and_single_bit_ne_zero {x n : Nat} : (x &&& 2 ^ n ≠ 0) ↔ x.testBit n = true := by
  constructor
  · intro h
    by_contra hb
    apply h
    apply Nat.eq_of_testBit_eq
    intro i
    simp only [Nat.testBit_and, Nat.testBit_two_pow, Nat.zero_testBit]
    rcases Decidable.em (n = i) with he | he
    · subst he
      simp [Bool.not_eq_true] at hb
      simp [hb]
    · simp [he]
  · intro h hz
    have := congrArg (fun v => v.testBit n) hz
    simp [Nat.testBit_and, Nat.testBit_two_pow, h] at this

theorem and_bit15 (x : Nat) : (x &&& 32768 ≠ 0) ↔ x.testBit 15 = true := by
  have h : (32768 : Nat) = 2 ^ 15 := by norm_num
  rw [h]
  exact and_single_bit_ne_zero

theorem and_bit15_pos {x : Nat} (h : x.testBit 15 = true) : x &&& 32768 ≠ 0 :=
  (and_bit15 x).mpr h

theorem and_bit15_neg {x : Nat} (h : x.testBit 15 = false) : ¬ (x &&& 32768 ≠ 0) := by
  intro hc
  have hb := (and_bit15 x).mp hc
  rw [h] at hb
  exact Bool.noConfusion hb

theorem xor_xor_xor_comm (a b c d : Nat) :
    (a ^^^ b) ^^^ (c ^^^ d) = (a ^^^ c) ^^^ (b ^^^ d) := by
  rw [Nat.xor_assoc, xor_left_comm b, ← Nat.xor_assoc]

theorem xor_mod65536 (a b : Nat) : (a ^^^ b) % 65536 = (a % 65536) ^^^ (b % 65536) := by
  have h : (65536 : Nat) = 2 ^ 16 := by norm_num
  rw [h]
  exact xor_mod_two_pow a b 16

theorem and255_eq_mod (x : Nat) : x &&& 255 = x % 256 := by
  have h : (255 : Nat) = 2 ^ 8 - 1 := by norm_num
  have h2 : (256 : Nat) = 2 ^ 8 := by norm_num
  rw [h, h2]
  exact and_mask_eq_mod x 8

theorem shl8_mod65536 (x : Nat) : (x <<< 8) % 65536 = (x % 256) <<< 8 := by
  have h : (65536 : Nat) = 2 ^ 16 := by norm_num
  have h2 : (256 : Nat) = 2 ^ 8 := by norm_num
  rw [h, h2]
  apply Nat.eq_of_testBit_eq
  intro i
  simp only [Nat.testBit_mod_two_pow, Nat.testBit_shiftLeft, ge_iff_le]
  rcases Decidable.em (8 ≤ i) with h8 | h8
  · rcases Decidable.em (i < 16) with h16 | h16
    · have : i - 8 < 8 := by omega
      simp [h8, h16, this]
    · have : ¬ (i - 8 < 8) := by omega
      simp [h8, h16, this]
  · simp [h8]

theorem flacCrc16RefBitStep_linear (a b : Nat) :
    flacCrc16RefBitStep (a ^^^ b) = flacCrc16RefBitStep a ^^^ flacCrc16RefBitStep b := by
  unfold flacCrc16RefBitStep
  rw [← xor_mod65536]
  congr 1
  rw [xor_shiftLeft_dist]
  have hp : (if (a ^^^ b) &&& 32768 ≠ 0 then (32773 : Nat) else 0) =
      (if a &&& 32768 ≠ 0 then (32773 : Nat) else 0) ^^^
        (if b &&& 32768 ≠ 0 then (32773 : Nat) else 0) := by
    have hx : (a ^^^ b).testBit 15 = (a.testBit 15 ^^ b.testBit 15) := Nat.testBit_xor a b 15
    cases ha : a.testBit 15 <;> cases hb : b.testBit 15 <;>
      rw [ha, hb] at hx <;>
      simp only [Bool.xor_false, Bool.xor_true, Bool.false_xor, Bool.true_xor,
        Bool.not_false, Bool.not_true] at hx
    · rw [if_neg (and_bit15_neg hx), if_neg (and_bit15_neg ha), if_neg (and_bit15_neg hb)]
      decide
    · rw [if_pos (and_bit15_pos hx), if_neg (and_bit15_neg ha), if_pos (and_bit15_pos hb)]
      decide
    · rw [if_pos (and_bit15_pos hx), if_pos (and_bit15_pos ha), if_neg (and_bit15_neg hb)]
      decide
    · rw [if_neg (and_bit15_neg hx), if_pos (and_bit15_pos ha), if_pos (and_bit15_pos hb)]
      decide
  rw [hp, xor_xor_xor_comm]

/-- A linear function iterates linearly. -/
theorem iterate_linear {f : Nat → Nat}
    (hf : ∀ a b, f (a ^^^ b) = f a ^^^ f b) (n : Nat) (a b : Nat) :
    f^[n] (a ^^^ b) = f^[n] a ^^^ f^[n] b := by
  induction n generalizing a b with
  | zero => rfl
  | succ n ih => rw [Function.iterate_succ_apply, Function.iterate_succ_apply,
      Function.iterate_succ_apply, hf, ih]

theorem flacCrc16RefBitStep_zero : flacCrc16RefBitStep 0 = 0 := by decide

theorem flacCrc16RefByteStep_linear (a b x y : Nat) :
    flacCrc16RefByteStep (a ^^^ b) (x ^^^ y) =
      flacCrc16RefByteStep a x ^^^ flacCrc16RefByteStep b y := by
  unfold flacCrc16RefByteStep
  rw [← iterate_linear flacCrc16RefBitStep_linear]
  congr 1
  rw [xor_shiftLeft_dist]
  rw [Nat.xor_assoc, xor_left_comm b, ← Nat.xor_assoc]

theorem flacCrc16RefByteStep_zero_zero : flacCrc16RefByteStep 0 0 = 0 := by decide

theorem flacCrc16RefByteStep_split (c b : Nat) :
    flacCrc16RefByteStep c b = flacCrc16RefByteStep c 0 ^^^ flacCrc16RefByteStep 0 b := by
  have := flacCrc16RefByteStep_linear c 0 0 b
  simpa using this

theorem flacCrc16RefBitStep_lt (x : Nat) : flacCrc16RefBitStep x < 65536 := by
  unfold flacCrc16RefBitStep
  have : (65536 : Nat) = 2 ^ 16 := by norm_num
  rw [this]
  exact mod_two_pow_lt _ 16

theorem flacCrc16RefByteStep_lt (c b : Nat) : flacCrc16RefByteStep c b < 65536 := by
  unfold flacCrc16RefByteStep
  rw [show (8 : Nat) = 7 + 1 from rfl, Function.iterate_succ_apply']
  exact flacCrc16RefBitStep_lt _

theorem flacCrc16Table0_lt (b : Nat) : flacCrc16Table0 b < 65536 := by
  unfold flacCrc16Table0
  have : (65536 : Nat) = 2 ^ 16 := by norm_num
  rw [this]
  exact mod_two_pow_lt _ 16

theorem flacCrc16Table_lt (k b : Nat) : flacCrc16Table k b < 65536 := by
  cases k with
  | zero => exact flacCrc16Table0_lt b
  | succ k =>
    show (_ % 65536) < 65536
    have : (65536 : Nat) = 2 ^ 16 := by norm_num
    rw [this]
    exact mod_two_pow_lt _ 16

/-- Slice 0 of the table agrees with one reference byte step from 0,
checked over all 256 byte values. -/
theorem flacCrc16Table0_eq_byteStep :
    ∀ b < 256, flacCrc16Table 0 b = flacCrc16RefByteStep 0 b := by
  have h : (List.range 256).all
      (fun b => decide (flacCrc16Table 0 b = flacCrc16RefByteStep 0 b)) = true := by decide
  intro b hb
  exact of_decide_eq_true (List.all_eq_true.mp h b (List.mem_range.mpr hb))

/-- Eight bit steps of a value below 256 just shift it into the high byte,
checked over all 256 values. -/
theorem flacCrc16_steps8_low :
    ∀ c < 256, flacCrc16RefBitStep^[8] c = c <<< 8 := by
  have h : (List.range 256).all
      (fun c => decide (flacCrc16RefBitStep^[8] c = c <<< 8)) = true := by decide
  intro c hc
  exact of_decide_eq_true (List.all_eq_true.mp h c (List.mem_range.mpr hc))

theorem and_mask_lt_256 (c : Nat) : c &&& 0xff < 256 :=
  Nat.lt_succ_of_le Nat.and_le_right

theorem shiftRight8_lt_256 {c : Nat} (hc : c < 65536) : c >>> 8 < 256 := by
  have : c < 2 ^ (8 + 8) := by norm_num at hc ⊢; omega
  have := shiftRight_lt (n := 8) (w := 8) this
  norm_num at this
  exact this

/-- Decomposition of one reference byte step into the table-driven bytewise
form used by the tail loop. -/
theorem flacCrc16_byteStep_decomp {c b : Nat} (hc : c < 65536) (hb : b < 256) :
    flacCrc16RefByteStep c b =
      ((c &&& 0xff) <<< 8) ^^^ flacCrc16Table 0 ((c >>> 8) ^^^ b) := by
  have hsplit : c ^^^ (b <<< 8) = (c &&& 0xff) ^^^ (((c >>> 8) ^^^ b) <<< 8) := by
    conv_lhs => rw [xor_decompose c 8]
    rw [xor_shiftLeft_dist]
    have hmask : c % 2 ^ 8 = c &&& 0xff := by
      rw [and255_eq_mod]; norm_num
    rw [hmask]
    rw [Nat.xor_comm ((c >>> 8) <<< 8), Nat.xor_assoc]
  have hhi : (c >>> 8) ^^^ b < 256 := by
    have h1 := shiftRight8_lt_256 hc
    have : (256 : Nat) = 2 ^ 8 := by norm_num
    rw [this] at h1 hb ⊢
    exact Nat.xor_lt_two_pow h1 hb
  unfold flacCrc16RefByteStep
  rw [hsplit, iterate_linear flacCrc16RefBitStep_linear]
  rw [flacCrc16_steps8_low _ (and_mask_lt_256 c)]
  congr 1
  rw [flacCrc16Table0_eq_byteStep _ hhi]
  unfold flacCrc16RefByteStep
  rw [Nat.zero_xor]

/-- The tail loop computes the bytewise reference fold. -/
theorem flacCrc16Tail_eq_fold :
    ∀ (data : List Nat), (∀ b ∈ data, b < 256) → ∀ crc, crc < 65536 →
      flacCrc16Tail crc data = data.foldl flacCrc16RefByteStep crc := by
  intro data
  induction data with
  | nil => intro _ crc _; rfl
  | cons b rest ih =>
    intro hmem crc hcrc
    have hb : b < 256 := hmem b (by simp)
    show flacCrc16Tail _ rest = _
    rw [← flacCrc16_byteStep_decomp hcrc hb]
    exact ih (fun x hx => hmem x (by simp [hx])) _ (flacCrc16RefByteStep_lt crc b)

/-- Slice `k + 1` is one zero-byte reference step applied to slice `k`. -/
theorem flacCrc16Table_succ (k b : Nat) :
    flacCrc16Table (k + 1) b = flacCrc16RefByteStep (flacCrc16Table k b) 0 := by
  have hT := flacCrc16Table_lt k b
  rw [flacCrc16_byteStep_decomp hT (by norm_num)]
  show (_ ^^^ _) % 65536 = _
  rw [xor_mod65536]
  rw [Nat.mod_eq_of_lt (flacCrc16Table0_lt _)]
  rw [shl8_mod65536, ← and255_eq_mod]
  rw [Nat.xor_comm, Nat.xor_zero]
  rfl

/-- One zero-byte reference step, the transfer function the sliced tables
iterate. -/
def flacG (c : Nat) : Nat := flacCrc16RefByteStep c 0

/-- Slice `k` equals `k` zero-byte reference steps after slice 0. -/
theorem flacCrc16Table_eq_iter (k b : Nat) :
    flacCrc16Table k b = flacG^[k] (flacCrc16Table 0 b) := by
  induction k with
  | zero => rfl
  | succ k ih => rw [flacCrc16Table_succ, ih, Function.iterate_succ_apply']; rfl

theorem flacG_linear (a b : Nat) : flacG (a ^^^ b) = flacG a ^^^ flacG b := by
  show flacCrc16RefByteStep _ 0 = _
  have := flacCrc16RefByteStep_linear a b 0 0
  simpa using this

theorem flacG_iter_linear (n a b : Nat) :
    flacG^[n] (a ^^^ b) = flacG^[n] a ^^^ flacG^[n] b :=
  iterate_linear flacG_linear n a b

/-- Table linearity on byte-sized indexes. -/
theorem flacCrc16Table_linear {k x y : Nat} (hx : x < 256) (hy : y < 256) :
    flacCrc16Table k (x ^^^ y) = flacCrc16Table k x ^^^ flacCrc16Table k y := by
  have hxy : x ^^^ y < 256 := by
    have h : (256 : Nat) = 2 ^ 8 := by norm_num
    rw [h] at hx hy ⊢
    exact Nat.xor_lt_two_pow hx hy
  have e : ∀ z, z < 256 → flacCrc16Table k z = flacG^[k] (flacCrc16RefByteStep 0 z) := by
    intro z hz
    rw [flacCrc16Table_eq_iter, flacCrc16Table0_eq_byteStep _ hz]
  rw [e _ hxy, e _ hx, e _ hy]
  rw [show flacCrc16RefByteStep 0 (x ^^^ y) =
        flacCrc16RefByteStep 0 x ^^^ flacCrc16RefByteStep 0 y from by
      have := flacCrc16RefByteStep_linear 0 0 x y
      simpa using this]
  exact flacG_iter_linear k _ _

/-- Shifting the fold seed out through the linear structure. -/
theorem flacCrc16_fold_shift (bs : List Nat) :
    ∀ c, bs.foldl flacCrc16RefByteStep c =
      flacG^[bs.length] c ^^^ bs.foldl flacCrc16RefByteStep 0 := by
  induction bs with
  | nil => intro c; simp
  | cons b bs ih =>
    intro c
    rw [List.foldl_cons, List.foldl_cons, List.length_cons]
    rw [ih (flacCrc16RefByteStep c b), ih (flacCrc16RefByteStep 0 b)]
    rw [show flacCrc16RefByteStep c b = flacG c ^^^ flacCrc16RefByteStep 0 b from
      flacCrc16RefByteStep_split c b]
    rw [flacG_iter_linear]
    rw [Function.iterate_succ_apply]
    rw [Nat.xor_assoc]

/-- Expanding a zero-seeded fold one byte at a time into table lookups. -/
theorem flacCrc16_fold_zero_cons (b : Nat) (bs : List Nat) (hb : b < 256) :
    (b :: bs).foldl flacCrc16RefByteStep 0 =
      flacCrc16Table bs.length b ^^^ bs.foldl flacCrc16RefByteStep 0 := by
  show bs.foldl _ (flacCrc16RefByteStep 0 b) = _
  rw [flacCrc16_fold_shift bs (flacCrc16RefByteStep 0 b)]
  rw [flacCrc16Table_eq_iter, flacCrc16Table0_eq_byteStep _ hb]

theorem shl8_or_eq_xor (a b : Nat) (hb : b < 256) :
    (a <<< 8) ||| b = (a <<< 8) ^^^ b := by
  apply Nat.eq_of_testBit_eq
  intro i
  rw [Nat.testBit_or, Nat.testBit_xor]
  rcases Decidable.em (8 ≤ i) with h | h
  · have hbb : b.testBit i = false := by
      apply Nat.testBit_lt_two_pow
      calc b < 256 := hb
      _ = 2 ^ 8 := by norm_num
      _ ≤ 2 ^ i := Nat.pow_le_pow_right (by norm_num) h
    simp [hbb]
  · have haa : (a <<< 8).testBit i = false := by
      rw [Nat.testBit_shiftLeft]
      simp [h]
    simp [haa]

theorem shr8_eq_zero {b : Nat} (hb : b < 256) : b >>> 8 = 0 := by
  rw [Nat.shiftRight_eq_div_pow]
  exact Nat.div_eq_of_lt (by norm_num at hb ⊢; omega)

theorem and255_eq_self {b : Nat} (hb : b < 256) : b &&& 255 = b := by
  rw [and255_eq_mod]
  exact Nat.mod_eq_of_lt hb

theorem shl8_and255_eq_zero (a : Nat) : (a <<< 8) &&& 255 = 0 := by
  have h := shiftLeft_and_mask_zero a 8
  norm_num at h
  exact h

/-- Sixteen zero-byte reference steps expressed through the highest two
table slices. -/
theorem flacCrc16_G16 {crc : Nat} (hcrc : crc < 65536) :
    flacG^[16] crc = flacCrc16Table 15 (crc >>> 8) ^^^ flacCrc16Table 14 (crc &&& 255) := by
  have hlo : crc &&& 255 < 256 := and_mask_lt_256 crc
  have hG : flacG crc = ((crc &&& 255) <<< 8) ^^^ flacCrc16Table 0 (crc >>> 8) := by
    show flacCrc16RefByteStep crc 0 = _
    have := flacCrc16_byteStep_decomp hcrc (show (0 : Nat) < 256 by norm_num)
    rw [this, Nat.xor_zero]
  have hGlo : flacG ((crc &&& 255) <<< 8) = flacCrc16Table 0 (crc &&& 255) := by
    show flacCrc16RefByteStep _ 0 = _
    have hsl : (crc &&& 255) <<< 8 < 65536 := by
      have h8 : crc &&& 255 < 2 ^ 8 := by norm_num at hlo ⊢; omega
      have := shiftLeft_lt (n := 8) h8
      norm_num at this
      exact this
    have := flacCrc16_byteStep_decomp hsl (show (0 : Nat) < 256 by norm_num)
    rw [this, Nat.xor_zero, shl8_and255_eq_zero, Nat.zero_shiftLeft,
      shiftLeft_shiftRight_self, Nat.zero_xor]
  have h1 : flacG^[16] crc =
      flacG^[15] (((crc &&& 255) <<< 8) ^^^ flacCrc16Table 0 (crc >>> 8)) := by
    rw [show (16 : Nat) = 15 + 1 from rfl, Function.iterate_succ_apply, hG]
  have h2 : flacG^[15] ((crc &&& 255) <<< 8) = flacCrc16Table 14 (crc &&& 255) := by
    rw [show (15 : Nat) = 14 + 1 from rfl, Function.iterate_succ_apply, hGlo,
      ← flacCrc16Table_eq_iter]
  have h3 : flacG^[15] (flacCrc16Table 0 (crc >>> 8)) = flacCrc16Table 15 (crc >>> 8) :=
    (flacCrc16Table_eq_iter 15 _).symm
  rw [h1, flacG_iter_linear, h2, h3, Nat.xor_comm]

/-- One iteration of the 16-byte slice loop computes sixteen reference
byte steps. -/
theorem flacCrc16_slice_step
    {crc b0 b1 b2 b3 b4 b5 b6 b7 b8 b9 b10 b11 b12 b13 b14 b15 : Nat}
    (hcrc : crc < 65536)
    (h0 : b0 < 256) (h1 : b1 < 256) (h2 : b2 < 256) (h3 : b3 < 256)
    (h4 : b4 < 256) (h5 : b5 < 256) (h6 : b6 < 256) (h7 : b7 < 256)
    (h8 : b8 < 256) (h9 : b9 < 256) (h10 : b10 < 256) (h11 : b11 < 256)
    (h12 : b12 < 256) (h13 : b13 < 256) (h14 : b14 < 256) (h15 : b15 < 256) :
    (flacCrc16Table 15 ((crc ^^^ ((b0 <<< 8) ||| b1)) >>> 8) ^^^
      flacCrc16Table 14 ((crc ^^^ ((b0 <<< 8) ||| b1)) &&& 0xff) ^^^
      flacCrc16Table 13 b2 ^^^ flacCrc16Table 12 b3 ^^^
      flacCrc16Table 11 b4 ^^^ flacCrc16Table 10 b5 ^^^
      flacCrc16Table 9 b6 ^^^ flacCrc16Table 8 b7 ^^^
      flacCrc16Table 7 b8 ^^^ flacCrc16Table 6 b9 ^^^
      flacCrc16Table 5 b10 ^^^ flacCrc16Table 4 b11 ^^^
      flacCrc16Table 3 b12 ^^^ flacCrc16Table 2 b13 ^^^
      flacCrc16Table 1 b14 ^^^ flacCrc16Table 0 b15) =
    [b0, b1, b2, b3, b4, b5, b6, b7, b8, b9, b10, b11, b12, b13, b14, b15].foldl
      flacCrc16RefByteStep crc := by
  have hhi : crc >>> 8 < 256 := shiftRight8_lt_256 hcrc
  have hlo : crc &&& 255 < 256 := and_mask_lt_256 crc
  have hc1 : (crc ^^^ ((b0 <<< 8) ||| b1)) >>> 8 = (crc >>> 8) ^^^ b0 := by
    rw [shl8_or_eq_xor _ _ h1, ← Nat.xor_assoc, xor_shiftRight_dist,
      xor_shiftRight_dist, shiftLeft_shiftRight_self, shr8_eq_zero h1, Nat.xor_zero]
  have hc2 : (crc ^^^ ((b0 <<< 8) ||| b1)) &&& 255 = (crc &&& 255) ^^^ b1 := by
    rw [shl8_or_eq_xor _ _ h1, ← Nat.xor_assoc, xor_and_dist, xor_and_dist,
      shl8_and255_eq_zero, Nat.xor_zero, and255_eq_self h1]
  rw [show (0xff : Nat) = 255 from rfl, hc1, hc2]
  rw [flacCrc16Table_linear hhi h0, flacCrc16Table_linear hlo h1]
  rw [flacCrc16_fold_shift]
  rw [show ([b0, b1, b2, b3, b4, b5, b6, b7, b8, b9, b10, b11, b12, b13,
      b14, b15] : List Nat).length = 16 from rfl]
  rw [flacCrc16_G16 hcrc]
  rw [flacCrc16_fold_zero_cons b0 _ h0, flacCrc16_fold_zero_cons b1 _ h1,
    flacCrc16_fold_zero_cons b2 _ h2, flacCrc16_fold_zero_cons b3 _ h3,
    flacCrc16_fold_zero_cons b4 _ h4, flacCrc16_fold_zero_cons b5 _ h5,
    flacCrc16_fold_zero_cons b6 _ h6, flacCrc16_fold_zero_cons b7 _ h7,
    flacCrc16_fold_zero_cons b8 _ h8, flacCrc16_fold_zero_cons b9 _ h9,
    flacCrc16_fold_zero_cons b10 _ h10, flacCrc16_fold_zero_cons b11 _ h11,
    flacCrc16_fold_zero_cons b12 _ h12, flacCrc16_fold_zero_cons b13 _ h13,
    flacCrc16_fold_zero_cons b14 _ h14, flacCrc16_fold_zero_cons b15 _ h15]
  simp only [List.length_cons, List.length_nil, List.foldl_nil]
  norm_num
  simp only [← Nat.xor_assoc]
  simp only [Nat.xor_assoc, Nat.xor_comm, xor_left_comm]

set_option maxHeartbeats 3200000 in
/-- The slice loop followed by the tail loop computes the bytewise
reference fold. -/
theorem flacCrc16Slice_eq_fold (crc : Nat) (data : List Nat) :
    (∀ b ∈ data, b < 256) → crc < 65536 →
      flacCrc16Slice crc data = data.foldl flacCrc16RefByteStep crc := by
  induction crc, data using flacCrc16Slice.induct with
  | case1 crc b0 b1 b2 b3 b4 b5 b6 b7 b8 b9 b10 b11 b12 b13 b14 b15 rest ih =>
    intro hmem hcrc
    have hb : ∀ i ∈ [b0, b1, b2, b3, b4, b5, b6, b7, b8, b9, b10, b11, b12,
        b13, b14, b15], i < 256 := by
      intro i hi
      apply hmem
      simp only [List.mem_cons] at hi ⊢
      tauto
    have h0 : b0 < 256 := hb b0 (by simp)
    have h1 : b1 < 256 := hb b1 (by simp)
    have h2 : b2 < 256 := hb b2 (by simp)
    have h3 : b3 < 256 := hb b3 (by simp)
    have h4 : b4 < 256 := hb b4 (by simp)
    have h5 : b5 < 256 := hb b5 (by simp)
    have h6 : b6 < 256 := hb b6 (by simp)
    have h7 : b7 < 256 := hb b7 (by simp)
    have h8 : b8 < 256 := hb b8 (by simp)
    have h9 : b9 < 256 := hb b9 (by simp)
    have h10 : b10 < 256 := hb b10 (by simp)
    have h11 : b11 < 256 := hb b11 (by simp)
    have h12 : b12 < 256 := hb b12 (by simp)
    have h13 : b13 < 256 := hb b13 (by simp)
    have h14 : b14 < 256 := hb b14 (by simp)
    have h15 : b15 < 256 := hb b15 (by simp)
    have hstep := flacCrc16_slice_step hcrc h0 h1 h2 h3 h4 h5 h6 h7 h8 h9
      h10 h11 h12 h13 h14 h15
    have hlt : [b0, b1, b2, b3, b4, b5, b6, b7, b8, b9, b10, b11, b12, b13,
        b14, b15].foldl flacCrc16RefByteStep crc < 65536 := by
      simp only [List.foldl_cons, List.foldl_nil]
      exact flacCrc16RefByteStep_lt _ _
    have hmemr : ∀ x ∈ rest, x < 256 := fun x hx =>
      hmem x (by simp only [List.mem_cons] at hx ⊢; tauto)
    have hlt2 := hlt
    rw [← hstep] at hlt2
    rw [flacCrc16Slice.eq_1]
    rw [ih hmemr hlt2]
    rw [hstep]
    simp only [List.foldl_cons, List.foldl_nil]
  | case2 crc rest hno =>
    intro hmem hcrc
    rw [flacCrc16Slice.eq_2 crc rest hno]
    exact flacCrc16Tail_eq_fold rest hmem crc hcrc

/-- C6, FLAC half: the 16-slice `flacCrc16` equals the byte-by-byte
reference for every byte list. -/
theorem flacCrc16_eq_ref (data : List Nat) (h : ∀ b ∈ data, b < 256) :
    flacCrc16 data = flacCrc16Ref data :=
  flacCrc16Slice_eq_fold 0 data h (by norm_num)

/-! ## Equivalence of the sliced CRC-32 with the bytewise reference -/

theorem and1_eq_mod (x : Nat) : x &&& 1 = x % 2 := by
  have h : (1 : Nat) = 2 ^ 1 - 1 := by norm_num
  have h2 : (2 : Nat) = 2 ^ 1 := by norm_num
  rw [h, h2]
  exact and_mask_eq_mod x 1

theorem crc32BitStep_linear (a b : Nat) :
    crc32BitStep (a ^^^ b) = crc32BitStep a ^^^ crc32BitStep b := by
  unfold crc32BitStep
  rw [xor_shiftRight_dist, xor_and_dist, and1_eq_mod, and1_eq_mod]
  rcases Nat.mod_two_eq_zero_or_one a with ha | ha <;>
    rcases Nat.mod_two_eq_zero_or_one b with hb | hb <;>
    rw [ha, hb] <;>
    simp [Nat.xor_assoc, Nat.xor_comm, xor_left_comm, Nat.xor_self,
      Nat.xor_zero, Nat.zero_xor]

theorem crc32BitStep_iter_linear (n a b : Nat) :
    crc32BitStep^[n] (a ^^^ b) = crc32BitStep^[n] a ^^^ crc32BitStep^[n] b :=
  iterate_linear crc32BitStep_linear n a b

theorem crc32BitStep_zero : crc32BitStep 0 = 0 := by decide

/-- Eight bit steps of a byte shifted left by 8 recover the byte. -/
theorem crc32_steps_shift : ∀ (n : Nat) (x : Nat), crc32BitStep^[n] (x <<< n) = x := by
  intro n
  induction n with
  | zero => intro x; simp
  | succ n ih =>
    intro x
    rw [Function.iterate_succ_apply]
    have h1 : crc32BitStep (x <<< (n + 1)) = x <<< n := by
      unfold crc32BitStep
      have ha : (x <<< (n + 1)) &&& 1 = 0 := by
        rw [and1_eq_mod, Nat.shiftLeft_eq, Nat.pow_succ, ← Nat.mul_assoc]
        exact Nat.mul_mod_left _ 2
      rw [ha, Nat.zero_mul, Nat.xor_zero]
      rw [Nat.shiftLeft_eq, Nat.shiftLeft_eq, Nat.shiftRight_eq_div_pow]
      rw [Nat.pow_succ, ← Nat.mul_assoc, Nat.pow_one]
      exact Nat.mul_div_cancel _ (by norm_num)
    rw [h1, ih]

theorem crc32Table0_lt (b : Nat) : crc32Table0 b < 4294967296 := by
  unfold crc32Table0
  have h : (4294967296 : Nat) = 2 ^ 32 := by norm_num
  rw [h]
  exact mod_two_pow_lt _ 32

theorem crc32Table_lt (k b : Nat) : crc32Table k b < 4294967296 := by
  cases k with
  | zero => exact crc32Table0_lt b
  | succ k =>
    show (_ % 4294967296) < 4294967296
    have h : (4294967296 : Nat) = 2 ^ 32 := by norm_num
    rw [h]
    exact mod_two_pow_lt _ 32

/-- Eight bit steps of a value below 256 stay below `2 ^ 32`, so slice 0
agrees with eight raw bit steps, checked over all 256 byte values. -/
theorem crc32Table0_eq_steps :
    ∀ b < 256, crc32Table 0 b = crc32BitStep^[8] b := by
  have h : (List.range 256).all
      (fun b => decide (crc32Table 0 b = crc32BitStep^[8] b)) = true := by decide
  intro b hb
  exact of_decide_eq_true (List.all_eq_true.mp h b (List.mem_range.mpr hb))

/-- Decomposition of one reference byte step into the table-driven bytewise
form used by the tail loop.  No bound on the running CRC is needed. -/
theorem crc32_byteStep_decomp {b : Nat} (hb : b < 256) (c : Nat) :
    crc32RefByteStep c b = crc32Table 0 ((c ^^^ b) &&& 255) ^^^ (c >>> 8) := by
  have hsplit : c ^^^ b = (((c ^^^ b) &&& 255)) ^^^ ((c >>> 8) <<< 8) := by
    conv_lhs => rw [xor_decompose (c ^^^ b) 8]
    rw [Nat.xor_comm (((c ^^^ b) >>> 8) <<< 8)]
    congr 2
    · rw [and255_eq_mod]
      norm_num
    · rw [xor_shiftRight_dist, shr8_eq_zero hb, Nat.xor_zero]
  unfold crc32RefByteStep
  conv_lhs => rw [hsplit]
  rw [crc32BitStep_iter_linear, crc32_steps_shift]
  rw [crc32Table0_eq_steps _ (and_mask_lt_256 _)]

/-- The tail loop computes the bytewise reference fold. -/
theorem crc32Tail_eq_fold :
    ∀ (data : List Nat), (∀ b ∈ data, b < 256) → ∀ crc,
      crc32Tail crc data = data.foldl crc32RefByteStep crc := by
  intro data
  induction data with
  | nil => intro _ crc; rfl
  | cons b rest ih =>
    intro hmem crc
    have hb : b < 256 := hmem b (by simp)
    show crc32Tail _ rest = _
    rw [← crc32_byteStep_decomp hb]
    exact ih (fun x hx => hmem x (by simp [hx])) _

/-- Slice `k + 1` is one zero-byte reference step applied to slice `k`. -/
theorem crc32Table_succ (k b : Nat) :
    crc32Table (k + 1) b = crc32RefByteStep (crc32Table k b) 0 := by
  have hT : crc32Table k b < 2 ^ 32 := by
    have := crc32Table_lt k b
    norm_num at this ⊢
    omega
  have hT0 : crc32Table0 (crc32Table k b &&& 255) < 2 ^ 32 := by
    have := crc32Table0_lt (crc32Table k b &&& 255)
    norm_num at this ⊢
    omega
  have hshr : crc32Table k b >>> 8 < 2 ^ 32 := by
    rw [Nat.shiftRight_eq_div_pow]
    exact lt_of_le_of_lt (Nat.div_le_self _ _) hT
  rw [crc32_byteStep_decomp (show (0 : Nat) < 256 by norm_num), Nat.xor_zero]
  show (_ ^^^ _) % 4294967296 = _
  rw [show (4294967296 : Nat) = 2 ^ 32 from by norm_num, xor_mod_two_pow,
    mod_two_pow_of_lt hshr, mod_two_pow_of_lt hT0, Nat.xor_comm]
  rfl

/-- One zero-byte reference step, the transfer function the sliced
CRC-32 tables iterate. -/
def crcG (c : Nat) : Nat := crc32RefByteStep c 0

/-- Slice `k` equals `k` zero-byte reference steps after slice 0. -/
theorem crc32Table_eq_iter (k b : Nat) :
    crc32Table k b = crcG^[k] (crc32Table 0 b) := by
  induction k with
  | zero => rfl
  | succ k ih => rw [crc32Table_succ, ih, Function.iterate_succ_apply']; rfl

theorem crcG_linear (a b : Nat) : crcG (a ^^^ b) = crcG a ^^^ crcG b := by
  show crc32BitStep^[8] ((a ^^^ b) ^^^ 0) =
    crc32BitStep^[8] (a ^^^ 0) ^^^ crc32BitStep^[8] (b ^^^ 0)
  rw [Nat.xor_zero, Nat.xor_zero, Nat.xor_zero]
  exact crc32BitStep_iter_linear 8 a b

theorem crcG_iter_linear (n a b : Nat) :
    crcG^[n] (a ^^^ b) = crcG^[n] a ^^^ crcG^[n] b :=
  iterate_linear crcG_linear n a b

theorem crc32RefByteStep_split (c b : Nat) :
    crc32RefByteStep c b = crcG c ^^^ crc32RefByteStep 0 b := by
  show crc32BitStep^[8] _ = crc32BitStep^[8] (c ^^^ 0) ^^^ crc32BitStep^[8] (0 ^^^ b)
  rw [Nat.xor_zero, Nat.zero_xor, ← crc32BitStep_iter_linear]

/-- Shifting the fold seed out through the linear structure. -/
theorem crc32_fold_shift (bs : List Nat) :
    ∀ c, bs.foldl crc32RefByteStep c =
      crcG^[bs.length] c ^^^ bs.foldl crc32RefByteStep 0 := by
  induction bs with
  | nil => intro c; simp
  | cons b bs ih =>
    intro c
    rw [List.foldl_cons, List.foldl_cons, List.length_cons]
    rw [ih (crc32RefByteStep c b), ih (crc32RefByteStep 0 b)]
    rw [show crc32RefByteStep c b = crcG c ^^^ crc32RefByteStep 0 b from
      crc32RefByteStep_split c b]
    rw [crcG_iter_linear]
    rw [Function.iterate_succ_apply]
    rw [Nat.xor_assoc]

/-- Expanding a zero-seeded fold one byte at a time into table lookups. -/
theorem crc32_fold_zero_cons (b : Nat) (bs : List Nat) (hb : b < 256) :
    (b :: bs).foldl crc32RefByteStep 0 =
      crc32Table bs.length b ^^^ bs.foldl crc32RefByteStep 0 := by
  show bs.foldl _ (crc32RefByteStep 0 b) = _
  rw [crc32_fold_shift bs (crc32RefByteStep 0 b)]
  congr 2
  rw [crc32Table_eq_iter]
  congr 1
  rw [crc32_byteStep_decomp hb, shr8_eq_zero (show (0 : Nat) < 256 by norm_num)]
  rw [Nat.xor_zero, Nat.zero_xor, and255_eq_self hb]

theorem crc32Table00_eq_zero : crc32Table 0 0 = 0 := by decide

theorem crcG_shl8 (x : Nat) : crcG (x <<< 8) = x := by
  show crc32RefByteStep _ 0 = _
  rw [crc32_byteStep_decomp (show (0 : Nat) < 256 by norm_num), Nat.xor_zero]
  rw [shl8_and255_eq_zero, crc32Table00_eq_zero, Nat.zero_xor, shiftLeft_shiftRight_self]

theorem crcG_iter_shl8 (k x : Nat) : crcG^[k + 1] (x <<< 8) = crcG^[k] x := by
  rw [Function.iterate_succ_apply, crcG_shl8]

theorem crcG_byte {z : Nat} (hz : z < 256) : crcG z = crc32Table 0 z := by
  show crc32RefByteStep _ 0 = _
  rw [crc32_byteStep_decomp (show (0 : Nat) < 256 by norm_num), Nat.xor_zero]
  rw [and255_eq_self hz, shr8_eq_zero hz, Nat.xor_zero]

theorem crcG_iter_byte (k : Nat) {z : Nat} (hz : z < 256) :
    crcG^[k + 1] z = crc32Table k z := by
  rw [Function.iterate_succ_apply, crcG_byte hz, ← crc32Table_eq_iter]

/-- Peeling one byte off the low end of the state under `k + 1` zero-byte
steps. -/
theorem crcG_iter_decomp (k x : Nat) :
    crcG^[k + 1] x = crcG^[k] (x >>> 8) ^^^ crc32Table k (x &&& 255) := by
  have hx : x = ((x >>> 8) <<< 8) ^^^ (x &&& 255) := by
    rw [and255_eq_mod, show (256 : Nat) = 2 ^ 8 from by norm_num]
    exact xor_decompose x 8
  conv_lhs => rw [hx]
  rw [crcG_iter_linear, crcG_iter_shl8, crcG_iter_byte k (and_mask_lt_256 x)]

/-- Sixteen zero-byte reference steps expressed through the top four
table slices, for a 32-bit state. -/
theorem crc32_G16 {crc : Nat} (hcrc : crc < 4294967296) :
    crcG^[16] crc =
      crc32Table 15 (crc &&& 255) ^^^ crc32Table 14 ((crc >>> 8) &&& 255) ^^^
        crc32Table 13 ((crc >>> 16) &&& 255) ^^^ crc32Table 12 (crc >>> 24) := by
  have e16 : crc >>> 16 = (crc >>> 8) >>> 8 := by
    rw [show (16 : Nat) = 8 + 8 from rfl, Nat.shiftRight_add]
  have e24 : crc >>> 24 = ((crc >>> 8) >>> 8) >>> 8 := by
    rw [show (24 : Nat) = 8 + 8 + 8 from rfl, Nat.shiftRight_add, Nat.shiftRight_add]
  have h24 : ((crc >>> 8) >>> 8) >>> 8 < 256 := by
    rw [← e24]
    have hc : crc < 2 ^ (24 + 8) := by norm_num at hcrc ⊢; omega
    have := shiftRight_lt (n := 24) hc
    norm_num at this
    exact this
  rw [e16, e24]
  rw [show crcG^[16] crc = crcG^[15] (crc >>> 8) ^^^ crc32Table 15 (crc &&& 255) from
    crcG_iter_decomp 15 crc]
  rw [show crcG^[15] (crc >>> 8) =
      crcG^[14] ((crc >>> 8) >>> 8) ^^^ crc32Table 14 ((crc >>> 8) &&& 255) from
    crcG_iter_decomp 14 (crc >>> 8)]
  rw [show crcG^[14] ((crc >>> 8) >>> 8) =
      crcG^[13] (((crc >>> 8) >>> 8) >>> 8) ^^^
        crc32Table 13 (((crc >>> 8) >>> 8) &&& 255) from
    crcG_iter_decomp 13 ((crc >>> 8) >>> 8)]
  rw [show crcG^[13] (((crc >>> 8) >>> 8) >>> 8) =
      crc32Table 12 (((crc >>> 8) >>> 8) >>> 8) from crcG_iter_byte 12 h24]
  simp only [Nat.xor_assoc, Nat.xor_comm, xor_left_comm]

/-- CRC-32 table linearity on byte-sized indexes. -/
theorem crc32Table_linear {x y : Nat} (hx : x < 256) (hy : y < 256) (k : Nat) :
    crc32Table k (x ^^^ y) = crc32Table k x ^^^ crc32Table k y := by
  have hxy : x ^^^ y < 256 := by
    have h : (256 : Nat) = 2 ^ 8 := by norm_num
    rw [h] at hx hy ⊢
    exact Nat.xor_lt_two_pow hx hy
  have e : ∀ z, z < 256 → crc32Table k z = crcG^[k] (crc32Table 0 z) := fun z _ =>
    crc32Table_eq_iter k z
  rw [e _ hxy, e _ hx, e _ hy]
  rw [crc32Table0_eq_steps _ hxy, crc32Table0_eq_steps _ hx, crc32Table0_eq_steps _ hy]
  rw [crc32BitStep_iter_linear]
  exact crcG_iter_linear k _ _

/-- One iteration of the 16-byte CRC-32 slice loop computes sixteen
reference byte steps. -/
theorem crc32_slice_step
    {crc b0 b1 b2 b3 b4 b5 b6 b7 b8 b9 b10 b11 b12 b13 b14 b15 : Nat}
    (hcrc : crc < 4294967296)
    (h0 : b0 < 256) (h1 : b1 < 256) (h2 : b2 < 256) (h3 : b3 < 256)
    (h4 : b4 < 256) (h5 : b5 < 256) (h6 : b6 < 256) (h7 : b7 < 256)
    (h8 : b8 < 256) (h9 : b9 < 256) (h10 : b10 < 256) (h11 : b11 < 256)
    (h12 : b12 < 256) (h13 : b13 < 256) (h14 : b14 < 256) (h15 : b15 < 256) :
    (0 ^^^
      crc32Table 15 ((b0 ^^^ crc) &&& 0xff) ^^^
      crc32Table 14 ((b1 ^^^ (crc >>> 8)) &&& 0xff) ^^^
      crc32Table 13 ((b2 ^^^ (crc >>> 16)) &&& 0xff) ^^^
      crc32Table 12 (b3 ^^^ (crc >>> 24)) ^^^
      crc32Table 11 b4 ^^^ crc32Table 10 b5 ^^^
      crc32Table 9 b6 ^^^ crc32Table 8 b7 ^^^
      crc32Table 7 b8 ^^^ crc32Table 6 b9 ^^^
      crc32Table 5 b10 ^^^ crc32Table 4 b11 ^^^
      crc32Table 3 b12 ^^^ crc32Table 2 b13 ^^^
      crc32Table 1 b14 ^^^ crc32Table 0 b15) =
    [b0, b1, b2, b3, b4, b5, b6, b7, b8, b9, b10, b11, b12, b13, b14, b15].foldl
      crc32RefByteStep crc := by
  have hc0 : crc &&& 255 < 256 := and_mask_lt_256 crc
  have hc1 : (crc >>> 8) &&& 255 < 256 := and_mask_lt_256 _
  have hc2 : (crc >>> 16) &&& 255 < 256 := and_mask_lt_256 _
  have hc3 : crc >>> 24 < 256 := by
    have hc : crc < 2 ^ (24 + 8) := by norm_num at hcrc ⊢; omega
    have := shiftRight_lt (n := 24) hc
    norm_num at this
    exact this
  have ha0 : (b0 ^^^ crc) &&& 255 = b0 ^^^ (crc &&& 255) := by
    rw [xor_and_dist, and255_eq_self h0]
  have ha1 : (b1 ^^^ (crc >>> 8)) &&& 255 = b1 ^^^ ((crc >>> 8) &&& 255) := by
    rw [xor_and_dist, and255_eq_self h1]
  have ha2 : (b2 ^^^ (crc >>> 16)) &&& 255 = b2 ^^^ ((crc >>> 16) &&& 255) := by
    rw [xor_and_dist, and255_eq_self h2]
  rw [show (0xff : Nat) = 255 from rfl, ha0, ha1, ha2]
  rw [crc32Table_linear h0 hc0 15, crc32Table_linear h1 hc1 14,
    crc32Table_linear h2 hc2 13, crc32Table_linear h3 hc3 12]
  rw [crc32_fold_shift]
  rw [show ([b0, b1, b2, b3, b4, b5, b6, b7, b8, b9, b10, b11, b12, b13,
      b14, b15] : List Nat).length = 16 from rfl]
  rw [crc32_G16 hcrc]
  rw [crc32_fold_zero_cons b0 _ h0, crc32_fold_zero_cons b1 _ h1,
    crc32_fold_zero_cons b2 _ h2, crc32_fold_zero_cons b3 _ h3,
    crc32_fold_zero_cons b4 _ h4, crc32_fold_zero_cons b5 _ h5,
    crc32_fold_zero_cons b6 _ h6, crc32_fold_zero_cons b7 _ h7,
    crc32_fold_zero_cons b8 _ h8, crc32_fold_zero_cons b9 _ h9,
    crc32_fold_zero_cons b10 _ h10, crc32_fold_zero_cons b11 _ h11,
    crc32_fold_zero_cons b12 _ h12, crc32_fold_zero_cons b13 _ h13,
    crc32_fold_zero_cons b14 _ h14, crc32_fold_zero_cons b15 _ h15]
  simp only [List.length_cons, List.length_nil, List.foldl_nil]
  norm_num
  simp only [← Nat.xor_assoc]
  simp only [Nat.xor_assoc, Nat.xor_comm, xor_left_comm]

theorem crc32BitStep_lt {x : Nat} (hx : x < 4294967296) : crc32BitStep x < 4294967296 := by
  unfold crc32BitStep
  have h : (4294967296 : Nat) = 2 ^ 32 := by norm_num
  rw [h] at hx ⊢
  apply Nat.xor_lt_two_pow
  · exact lt_of_le_of_lt (Nat.shiftRight_eq_div_pow x 1 ▸ Nat.div_le_self _ _) hx
  · have : x &&& 1 ≤ 1 := Nat.and_le_right
    have hk : (x &&& 1) * 3988292384 ≤ 3988292384 := by
      calc (x &&& 1) * 3988292384 ≤ 1 * 3988292384 := Nat.mul_le_mul_right _ this
      _ = 3988292384 := Nat.one_mul _
    omega

theorem iter_preserve {f : Nat → Nat} {P : Nat → Prop}
    (hf : ∀ x, P x → P (f x)) (n : Nat) : ∀ x, P x → P (f^[n] x) := by
  induction n with
  | zero => intro x hx; exact hx
  | succ n ih => intro x hx; rw [Function.iterate_succ_apply]; exact ih _ (hf _ hx)

theorem crc32RefByteStep_lt {c b : Nat} (hc : c < 4294967296) (hb : b < 256) :
    crc32RefByteStep c b < 4294967296 := by
  unfold crc32RefByteStep
  have hcb : c ^^^ b < 4294967296 := by
    have h : (4294967296 : Nat) = 2 ^ 32 := by norm_num
    rw [h] at hc ⊢
    exact Nat.xor_lt_two_pow hc (lt_trans hb (by norm_num))
  exact iter_preserve (P := fun x => x < 4294967296)
    (fun x hx => crc32BitStep_lt hx) 8 _ hcb

set_option maxHeartbeats 3200000 in
/-- The CRC-32 slice loop followed by the tail loop computes the bytewise
reference fold. -/
theorem crc32Slice_eq_fold (crc : Nat) (data : List Nat) :
    (∀ b ∈ data, b < 256) → crc < 4294967296 →
      crc32Slice crc data = data.foldl crc32RefByteStep crc := by
  induction crc, data using crc32Slice.induct with
  | case1 crc b0 b1 b2 b3 b4 b5 b6 b7 b8 b9 b10 b11 b12 b13 b14 b15 rest ih =>
    intro hmem hcrc
    have hb : ∀ i ∈ [b0, b1, b2, b3, b4, b5, b6, b7, b8, b9, b10, b11, b12,
        b13, b14, b15], i < 256 := by
      intro i hi
      apply hmem
      simp only [List.mem_cons] at hi ⊢
      tauto
    have h0 : b0 < 256 := hb b0 (by simp)
    have h1 : b1 < 256 := hb b1 (by simp)
    have h2 : b2 < 256 := hb b2 (by simp)
    have h3 : b3 < 256 := hb b3 (by simp)
    have h4 : b4 < 256 := hb b4 (by simp)
    have h5 : b5 < 256 := hb b5 (by simp)
    have h6 : b6 < 256 := hb b6 (by simp)
    have h7 : b7 < 256 := hb b7 (by simp)
    have h8 : b8 < 256 := hb b8 (by simp)
    have h9 : b9 < 256 := hb b9 (by simp)
    have h10 : b10 < 256 := hb b10 (by simp)
    have h11 : b11 < 256 := hb b11 (by simp)
    have h12 : b12 < 256 := hb b12 (by simp)
    have h13 : b13 < 256 := hb b13 (by simp)
    have h14 : b14 < 256 := hb b14 (by simp)
    have h15 : b15 < 256 := hb b15 (by simp)
    have hstep := crc32_slice_step hcrc h0 h1 h2 h3 h4 h5 h6 h7 h8 h9
      h10 h11 h12 h13 h14 h15
    have hlt : [b0, b1, b2, b3, b4, b5, b6, b7, b8, b9, b10, b11, b12, b13,
        b14, b15].foldl crc32RefByteStep crc < 4294967296 := by
      simp only [List.foldl_cons, List.foldl_nil]
      exact crc32RefByteStep_lt (crc32RefByteStep_lt (crc32RefByteStep_lt
        (crc32RefByteStep_lt (crc32RefByteStep_lt (crc32RefByteStep_lt
        (crc32RefByteStep_lt (crc32RefByteStep_lt (crc32RefByteStep_lt
        (crc32RefByteStep_lt (crc32RefByteStep_lt (crc32RefByteStep_lt
        (crc32RefByteStep_lt (crc32RefByteStep_lt (crc32RefByteStep_lt
        (crc32RefByteStep_lt hcrc h0) h1) h2) h3) h4) h5) h6) h7) h8) h9)
        h10) h11) h12) h13) h14) h15
    have hmemr : ∀ x ∈ rest, x < 256 := fun x hx =>
      hmem x (by simp only [List.mem_cons] at hx ⊢; tauto)
    have hlt2 := hlt
    rw [← hstep] at hlt2
    rw [crc32Slice.eq_1]
    rw [ih hmemr hlt2]
    rw [hstep]
    simp only [List.foldl_cons, List.foldl_nil]
  | case2 crc rest hno =>
    intro hmem _
    rw [crc32Slice.eq_2 crc rest hno]
    exact crc32Tail_eq_fold rest hmem crc

/-- C6, CRC-32 half: the 16-slice `crc32` equals the byte-by-byte
reference for every byte list. -/
theorem crc32_eq_ref (data : List Nat) (h : ∀ b ∈ data, b < 256) :
    crc32 data = crc32Ref data := by
  unfold crc32 crc32Ref
  rw [crc32Slice_eq_fold 0 data h (by norm_num)]

/-- A 20-byte buffer exercising both the 16-byte slice loop and the tail
loop of the CRC implementations. -/
def crcWitnessData : List Nat :=
  [0x31, 0x32, 0x33, 0x34, 0x35, 0x36, 0x37, 0x38, 0x39, 0xff,
   0x00, 0x80, 0x7f, 0x41, 0x42, 0x43, 0x44, 0x45, 0x46, 0x47]

/-- C6: for every byte array, the 16-slice table-driven `flacCrc16` equals
the bytewise CRC-16 reference (polynomial 0x8005, init 0, MSB-first) and
the 16-slice `crc32` equals the bytewise reflected CRC-32 reference
(polynomial 0xEDB88320, including the final XOR), for all lengths
including inputs shorter than 16 bytes. -/
theorem claim_C6_crc_tables_match_reference (data : List Nat)
    (h : ∀ b ∈ data, b < 256) :
    flacCrc16 data = flacCrc16Ref data ∧ crc32 data = crc32Ref data :=
  ⟨flacCrc16_eq_ref data h, crc32_eq_ref data h⟩

/-- Witness for C6 at a concrete 20-byte input. -/
theorem claim_C6_witness :
    (∀ b ∈ crcWitnessData, b < 256) ∧
      (flacCrc16 crcWitnessData = flacCrc16Ref crcWitnessData ∧
        crc32 crcWitnessData = crc32Ref crcWitnessData) :=
  ⟨by decide, claim_C6_crc_tables_match_reference crcWitnessData (by decide)⟩

/-! ## Frame statistics mapping (CodecParser.mapCodecFrameStats)

`src/CodecParser.ts` lines 196-213.  JavaScript floating-point arithmetic
on durations is modelled with exact rationals; `Math.round` is
round-half-up. -/

/-- `Math.round` for non-negative finite values: round half up. -/
def jsRound (q : ℚ) : ℤ := ⌊q + 1 / 2⌋

/-- The inputs `mapCodecFrameStats` reads from a codec frame: its payload
bytes, its sample count, and its header's sample rate.  `duration` is set
by the `CodecFrame` constructor to `samples / sampleRate * 1000`. -/
structure CodecFrameIn where
  data : List Nat
  samples : Nat
  sampleRate : ℚ

/-- `CodecFrame.duration` as assigned in the `CodecFrame` constructor. -/
def CodecFrameIn.duration (f : CodecFrameIn) : ℚ :=
  (f.samples : ℚ) / f.sampleRate * 1000

/-- The fields `mapCodecFrameStats` writes onto the emitted frame. -/
structure CodecFrameOut where
  samples : Nat
  dataLength : Nat
  headerSampleRate : ℚ
  headerBitrate : ℚ
  frameNumber : Nat
  totalBytesOut : Nat
  totalSamples : Nat
  totalDuration : ℚ
  crc32 : Nat

/-- The driver-side running counters that `mapCodecFrameStats` reads and
updates (`_sampleRate`, `_frameNumber`, `_totalBytesOut`, `_totalSamples`). -/
structure DriverStats where
  sampleRate : ℚ
  frameNumber : Nat
  totalBytesOut : Nat
  totalSamples : Nat

/-- Driver counters as initialised in `_getGenerator`. -/
def initDriverStats : DriverStats :=
  { sampleRate := 0, frameNumber := 0, totalBytesOut := 0, totalSamples := 0 }

/-- `CodecParser.mapCodecFrameStats`, as a pure transformer of the driver
counters producing the frame's stamped fields. -/
def mapCodecFrameStats (s : DriverStats) (f : CodecFrameIn) :
    DriverStats × CodecFrameOut :=
  let sampleRate := f.sampleRate
  let bitrate : ℚ := (jsRound ((f.data.length : ℚ) / f.duration) : ℚ) * 8
  let out : CodecFrameOut :=
    { samples := f.samples
      dataLength := f.data.length
      headerSampleRate := f.sampleRate
      headerBitrate := bitrate
      frameNumber := s.frameNumber
      totalBytesOut := s.totalBytesOut
      totalSamples := s.totalSamples
      totalDuration := (s.totalSamples : ℚ) / sampleRate * 1000
      crc32 := crc32 f.data }
  ({ sampleRate := sampleRate
     frameNumber := s.frameNumber + 1
     totalBytesOut := s.totalBytesOut + f.data.length
     totalSamples := s.totalSamples + f.samples }, out)

/-- Mapping a sequence of emitted codec frames through
`mapCodecFrameStats`, threading the driver counters. -/
def mapFrames (s : DriverStats) : List CodecFrameIn → DriverStats × List CodecFrameOut
  | [] => (s, [])
  | f :: fs =>
    let (s1, out) := mapCodecFrameStats s f
    let (s2, outs) := mapFrames s1 fs
    (s2, out :: outs)

theorem mapFrames_totals (frames : List CodecFrameIn) :
    ∀ s : DriverStats,
      (mapFrames s frames).1.totalBytesOut =
        s.totalBytesOut + (frames.map (fun f => f.data.length)).sum ∧
      (mapFrames s frames).1.totalSamples =
        s.totalSamples + (frames.map (fun f => f.samples)).sum := by
  induction frames with
  | nil => intro s; simp [mapFrames]
  | cons f fs ih =>
    intro s
    have h := ih ((mapCodecFrameStats s f).1)
    simp only [mapFrames, List.map_cons, List.sum_cons]
    constructor
    · rw [h.1]
      show s.totalBytesOut + f.data.length + _ = _
      omega
    · rw [h.2]
      show s.totalSamples + f.samples + _ = _
      omega

theorem mapFrames_length (frames : List CodecFrameIn) :
    ∀ s, ((mapFrames s frames).2).length = frames.length := by
  induction frames with
  | nil => intro s; rfl
  | cons f fs ih =>
    intro s
    simp only [mapFrames, List.length_cons]
    rw [ih]

theorem mapFrames_get_stats (frames : List CodecFrameIn) :
    ∀ (s : DriverStats) (i : Nat) (hi : i < frames.length),
      (((mapFrames s frames).2.get ⟨i, by rw [mapFrames_length]; exact hi⟩).totalBytesOut =
          s.totalBytesOut + ((frames.take i).map (fun f => f.data.length)).sum) ∧
      (((mapFrames s frames).2.get ⟨i, by rw [mapFrames_length]; exact hi⟩).totalSamples =
          s.totalSamples + ((frames.take i).map (fun f => f.samples)).sum) ∧
      (((mapFrames s frames).2.get ⟨i, by rw [mapFrames_length]; exact hi⟩).headerSampleRate =
          (frames.get ⟨i, hi⟩).sampleRate) ∧
      (((mapFrames s frames).2.get ⟨i, by rw [mapFrames_length]; exact hi⟩).totalDuration =
        (((mapFrames s frames).2.get
            ⟨i, by rw [mapFrames_length]; exact hi⟩).totalSamples : ℚ) /
          ((mapFrames s frames).2.get
            ⟨i, by rw [mapFrames_length]; exact hi⟩).headerSampleRate * 1000) := by
  induction frames with
  | nil => intro s i hi; exact absurd hi (by simp)
  | cons f fs ih =>
    intro s i hi
    cases i with
    | zero =>
      refine ⟨by simp [mapFrames, mapCodecFrameStats], by
        simp [mapFrames, mapCodecFrameStats], by
        simp [mapFrames, mapCodecFrameStats], ?_⟩
      simp [mapFrames, mapCodecFrameStats]
    | succ i =>
      have hi' : i < fs.length := by simpa using hi
      have h := ih ((mapCodecFrameStats s f).1) i hi'
      simp only [mapFrames, List.get_cons_succ, List.take_succ_cons, List.map_cons,
        List.sum_cons] at h ⊢
      refine ⟨?_, ?_, h.2.2.1, h.2.2.2⟩
      · rw [h.1]
        show _ = s.totalBytesOut + (f.data.length + _)
        have : (mapCodecFrameStats s f).1.totalBytesOut =
            s.totalBytesOut + f.data.length := rfl
        omega
      · rw [h.2.1]
        show _ = s.totalSamples + (f.samples + _)
        have : (mapCodecFrameStats s f).1.totalSamples =
            s.totalSamples + f.samples := rfl
        omega

/-- C2: after mapping any sequence of emitted codec frames from the
initial driver counters, `totalBytesOut` and `totalSamples` are the sums
of `data.length` and `samples` over all frames; every emitted frame
carries the pre-increment totals (sums over strictly earlier frames); and
each frame's `totalDuration` equals
`totalSamples / header.sampleRate * 1000`. -/
theorem claim_C2_frame_stats_totals (frames : List CodecFrameIn)
    (i : Nat) (hi : i < frames.length) :
    ((mapFrames initDriverStats frames).1.totalBytesOut =
        (frames.map (fun f => f.data.length)).sum ∧
      (mapFrames initDriverStats frames).1.totalSamples =
        (frames.map (fun f => f.samples)).sum) ∧
    (((mapFrames initDriverStats frames).2.get
        ⟨i, by rw [mapFrames_length]; exact hi⟩).totalBytesOut =
        ((frames.take i).map (fun f => f.data.length)).sum ∧
      ((mapFrames initDriverStats frames).2.get
        ⟨i, by rw [mapFrames_length]; exact hi⟩).totalSamples =
        ((frames.take i).map (fun f => f.samples)).sum ∧
      ((mapFrames initDriverStats frames).2.get
        ⟨i, by rw [mapFrames_length]; exact hi⟩).totalDuration =
        (((mapFrames initDriverStats frames).2.get
            ⟨i, by rw [mapFrames_length]; exact hi⟩).totalSamples : ℚ) /
          ((mapFrames initDriverStats frames).2.get
            ⟨i, by rw [mapFrames_length]; exact hi⟩).headerSampleRate * 1000) := by
  have ht := mapFrames_totals frames initDriverStats
  have hg := mapFrames_get_stats frames initDriverStats i hi
  exact ⟨⟨by rw [ht.1]; simp [initDriverStats], by rw [ht.2]; simp [initDriverStats]⟩,
    ⟨by rw [hg.1]; simp [initDriverStats], by rw [hg.2.1]; simp [initDriverStats],
      hg.2.2.2⟩⟩

/-- Two concrete frames for the C2 witness: 417 bytes / 1152 samples at
44100 Hz (the S1 scenario shape), then a second frame. -/
def c2Frames : List CodecFrameIn :=
  [{ data := [1, 2, 3], samples := 1152, sampleRate := 44100 },
   { data := [4, 5], samples := 576, sampleRate := 22050 }]

/-- Witness for C2 at a concrete two-frame sequence. -/
theorem claim_C2_witness :
    0 < c2Frames.length ∧
      ((mapFrames initDriverStats c2Frames).1.totalBytesOut =
        (c2Frames.map (fun f => f.data.length)).sum ∧
        (mapFrames initDriverStats c2Frames).1.totalSamples =
        (c2Frames.map (fun f => f.samples)).sum) :=
  ⟨by decide, (claim_C2_frame_stats_totals c2Frames 0 (by decide)).1⟩

/-! ## Header cache (src/codecs/HeaderCache.ts)

Keys are byte strings (`List Nat`), stored header records and their
codec-update field sets are opaque `Nat` identifiers.  The JS `Map` and
`WeakMap` are modelled as function maps; `onCodecUpdate` presence is the
`hasCallback` flag, and an invocation of the callback is the returned
event payload. -/

structure CacheState (V : Type) where
  hasCallback : Bool
  isEnabled : Bool
  headerCache : List Nat → Option V
  codecUpdateData : V → Option Nat
  codecShouldUpdate : Bool
  currentHeader : Option (List Nat)
  bitrate : ℚ

namespace HeaderCache

variable {V : Type}

/-- `reset()`: wipe both maps, clear the pending flag and the observed
bitrate, and disable the cache.  (`currentHeader` is not touched.) -/
def reset (s : CacheState V) : CacheState V :=
  { s with
    headerCache := fun _ => none
    codecUpdateData := fun _ => none
    codecShouldUpdate := false
    bitrate := 0
    isEnabled := false }

/-- The constructor: fields start unset, then `reset()` runs. -/
def init (hasCallback : Bool) : CacheState V :=
  reset
    { hasCallback := hasCallback
      isEnabled := false
      headerCache := fun _ => none
      codecUpdateData := fun _ => none
      codecShouldUpdate := false
      currentHeader := none
      bitrate := 0 }

/-- `enable()`. -/
def enable (s : CacheState V) : CacheState V := { s with isEnabled := true }

/-- `updateCurrentHeader(key)`. -/
def updateCurrentHeader (s : CacheState V) (key : List Nat) : CacheState V :=
  if s.hasCallback = true ∧ some key ≠ s.currentHeader then
    { s with codecShouldUpdate := true, currentHeader := some key }
  else s

/-- `getHeader(key)`: look up, and on a hit mark the current header. -/
def getHeader (s : CacheState V) (key : List Nat) : Option V × CacheState V :=
  match s.headerCache key with
  | some h => (some h, updateCurrentHeader s key)
  | none => (none, s)

/-- `setHeader(key, header, codecUpdateFields)`: no-op unless enabled. -/
def setHeader [DecidableEq V] (s : CacheState V) (key : List Nat)
    (header : V) (fields : Nat) : CacheState V :=
  if s.isEnabled = true then
    let s1 := updateCurrentHeader s key
    { s1 with
      headerCache := fun k => if k = key then some header else s1.headerCache k
      codecUpdateData := fun h => if h = header then some fields else s1.codecUpdateData h }
  else s

/-- `checkCodecUpdate(bitrate, totalDuration)`: fires the callback when
the bitrate changed or an update is pending, then clears the flag.
Returns the new state and the callback invocation, if any. -/
def checkCodecUpdate (s : CacheState V) (bitrate totalDuration : ℚ) :
    CacheState V × Option (ℚ × Option Nat × ℚ) :=
  if s.hasCallback = true then
    let s1 := if s.bitrate ≠ bitrate then
        { s with bitrate := bitrate, codecShouldUpdate := true }
      else s
    let ev := if s1.codecShouldUpdate = true then
        some (bitrate,
          (match s1.currentHeader with
           | some k =>
             match s1.headerCache k with
             | some h => s1.codecUpdateData h
             | none => none
           | none => none),
          totalDuration)
      else none
    ({ s1 with codecShouldUpdate := false }, ev)
  else (s, none)

end HeaderCache

/-- C9: the header-cache contract.  (1) `setHeader` stores nothing unless
the cache is enabled.  (2) Repeated `getHeader` on the same key returns
the identical stored record.  (3) With a registered callback,
`checkCodecUpdate` fires exactly when the bitrate differs from the last
observed one or an update is pending, and clears the pending flag; the
pending flag is set by a `getHeader` hit exactly when the current header
key changes. -/
theorem claim_C9_header_cache_contract (s : CacheState Nat) (key : List Nat)
    (header fields : Nat) (bitrate totalDuration : ℚ)
    (hdis : s.isEnabled = false) (hcb : s.hasCallback = true) :
    (HeaderCache.setHeader s key header fields = s) ∧
    ((HeaderCache.getHeader ((HeaderCache.getHeader s key).2) key).1 =
      (HeaderCache.getHeader s key).1) ∧
    (((HeaderCache.checkCodecUpdate s bitrate totalDuration).2.isSome = true ↔
        (s.bitrate ≠ bitrate ∨ s.codecShouldUpdate = true)) ∧
      (HeaderCache.checkCodecUpdate s bitrate totalDuration).1.codecShouldUpdate = false) ∧
    ((HeaderCache.getHeader s key).2.codecShouldUpdate = true ↔
      (s.codecShouldUpdate = true ∨
        ((s.headerCache key).isSome = true ∧ s.currentHeader ≠ some key))) := by
  refine ⟨?_, ?_, ⟨?_, ?_⟩, ?_⟩
  · unfold HeaderCache.setHeader
    rw [if_neg (by rw [hdis]; simp)]
  · unfold HeaderCache.getHeader HeaderCache.updateCurrentHeader
    cases hk : s.headerCache key with
    | none => simp [hk]
    | some h =>
      by_cases hcur : s.hasCallback = true ∧ some key ≠ s.currentHeader
      · rw [if_pos hcur]
        simp [hk]
      · rw [if_neg hcur]
        simp [hk]
  · unfold HeaderCache.checkCodecUpdate
    rw [if_pos hcb]
    by_cases hb : s.bitrate ≠ bitrate
    · rw [if_pos hb]
      simp [hb]
    · rw [if_neg hb]
      by_cases hu : s.codecShouldUpdate = true
      · simp [hb, hu]
      · simp [hb, hu]
  · unfold HeaderCache.checkCodecUpdate
    rw [if_pos hcb]
  · unfold HeaderCache.getHeader HeaderCache.updateCurrentHeader
    cases hk : s.headerCache key with
    | none => simp [hk]
    | some h =>
      by_cases hcur : some key ≠ s.currentHeader
      · rw [if_pos ⟨hcb, hcur⟩]
        simp only [hk, Option.isSome_some, true_and]
        constructor
        · intro _
          exact Or.inr (fun he => hcur he.symm)
        · intro _
          trivial
      · rw [if_neg (by intro hc; exact hcur hc.2)]
        push_neg at hcur
        simp [hk, hcur]

/-- Witness for C9 at a concrete disabled cache state with a callback. -/
theorem claim_C9_witness :
    (((HeaderCache.init true : CacheState Nat)).isEnabled = false ∧
        ((HeaderCache.init true : CacheState Nat)).hasCallback = true) ∧
      HeaderCache.setHeader (HeaderCache.init true : CacheState Nat) [255, 251] 7 3 =
        (HeaderCache.init true : CacheState Nat) :=
  ⟨⟨rfl, rfl⟩,
    (claim_C9_header_cache_contract (HeaderCache.init true) [255, 251] 7 3 128 0
      rfl rfl).1⟩

/-! ## The shared fixed-length framing skeleton
(src/codecs/Parser.ts, `fixedLengthFrameSync`)

After `syncFrame` has found a tentative frame of length `L` at the
current position, the skeleton decides between emitting it and dropping
it.  The Boolean `headerAtL` stands for the result of the `getHeader`
call at offset `L` (only consulted when the two earlier disjuncts are
false, by `||` short-circuiting); `ignoreNextFrame` is the parameter the
Ogg page parser sets to `true`. -/

structure SyncOutcome (V : Type) where
  emitted : Bool
  statsMapped : Bool
  cache : CacheState V
  advance : Nat

/-- The decision structure of `Parser.fixedLengthFrameSync`. -/
def fixedLengthFrameSync {V : Type} (ignoreNextFrame flushing headerAtL : Bool)
    (cache : CacheState V) (L : Nat) : SyncOutcome V :=
  if ignoreNextFrame || flushing || headerAtL then
    { emitted := true, statsMapped := true
      cache := HeaderCache.enable cache, advance := L }
  else
    { emitted := false, statsMapped := false
      cache := HeaderCache.reset cache, advance := 1 }

/-- C3 counterexample: the Ogg page parser invokes the skeleton with
`ignoreNextFrame = true` (`fixedLengthFrameSync(true)` in
`OggParser.parseFrame`), so with flushing false and no valid header at
offset `L = 27` a frame is still emitted and the position advances by 27,
contradicting the claim that no frame is emitted and the position
advances one byte. -/
theorem claim_C3_counterexample :
    (fixedLengthFrameSync true false false (HeaderCache.init false : CacheState Nat)
        27).emitted = true ∧
      (fixedLengthFrameSync true false false (HeaderCache.init false : CacheState Nat)
        27).advance = 27 :=
  ⟨rfl, rfl⟩

/-- C3 (amended): in the shared skeleton, when the next-frame check is
not ignored, not flushing, and no valid header parses at offset `L`, no
frame is emitted, stats are not mapped, the header cache is reset (wiped
and disabled), and the position advances exactly one byte; when
`ignoreNextFrame`, flushing, or a valid header parses at `L`, the cache
is enabled, the position advances exactly `L`, stats are mapped, and the
frame is emitted. -/
theorem claim_C3_skeleton_decision {V : Type} (ign flushing headerAtL : Bool)
    (cache : CacheState V) (L : Nat) :
    (ign = false → flushing = false → headerAtL = false →
      (fixedLengthFrameSync ign flushing headerAtL cache L).emitted = false ∧
      (fixedLengthFrameSync ign flushing headerAtL cache L).statsMapped = false ∧
      (fixedLengthFrameSync ign flushing headerAtL cache L).cache =
        HeaderCache.reset cache ∧
      ((fixedLengthFrameSync ign flushing headerAtL cache L).cache.headerCache =
        fun _ => none) ∧
      (fixedLengthFrameSync ign flushing headerAtL cache L).cache.isEnabled = false ∧
      (fixedLengthFrameSync ign flushing headerAtL cache L).advance = 1) ∧
    (ign = true ∨ flushing = true ∨ headerAtL = true →
      (fixedLengthFrameSync ign flushing headerAtL cache L).emitted = true ∧
      (fixedLengthFrameSync ign flushing headerAtL cache L).statsMapped = true ∧
      (fixedLengthFrameSync ign flushing headerAtL cache L).cache =
        HeaderCache.enable cache ∧
      (fixedLengthFrameSync ign flushing headerAtL cache L).cache.isEnabled = true ∧
      (fixedLengthFrameSync ign flushing headerAtL cache L).advance = L) := by
  constructor
  · intro hi hf hh
    subst hi; subst hf; subst hh
    exact ⟨rfl, rfl, rfl, rfl, rfl, rfl⟩
  · intro hor
    have hcond : (ign || flushing || headerAtL) = true := by
      rcases hor with h | h | h <;> simp [h]
    unfold fixedLengthFrameSync
    rw [hcond]
    exact ⟨rfl, rfl, rfl, rfl, rfl⟩

/-- Witness for C3 (amended) in the drop branch at concrete inputs. -/
theorem claim_C3_witness :
    (false = false) ∧
      ((fixedLengthFrameSync false false false (HeaderCache.init false : CacheState Nat)
          417).emitted = false ∧
        (fixedLengthFrameSync false false false (HeaderCache.init false : CacheState Nat)
          417).advance = 1) := by
  refine ⟨rfl, ?_⟩
  have h := (claim_C3_skeleton_decision false false false
    (HeaderCache.init false : CacheState Nat) 417).1 rfl rfl rfl
  exact ⟨h.1, h.2.2.2.2.2⟩

/-! ## MPEG header validation (src/codecs/mpeg/MPEGHeader getHeader)

The cache-miss validation path over the four header bytes.  The ID3v2
check and the header cache sit upstream of this logic in `getHeader`; a
cache hit can only return a record previously produced by this
validation for the same four bytes. -/

/-- `mpegVersions[i].sampleRates[j]`: version index 1 is reserved,
sample-rate index 3 is absent (`undefined`). -/
def mpegSampleRates (versionIdx rateIdx : Nat) : Option Nat :=
  match versionIdx, rateIdx with
  | 0, 0 => some 11025
  | 0, 1 => some 12000
  | 0, 2 => some 8000
  | 2, 0 => some 22050
  | 2, 1 => some 24000
  | 2, 2 => some 16000
  | 3, 0 => some 44100
  | 3, 1 => some 48000
  | 3, 2 => some 32000
  | _, _ => none

/-- `mpegVersions[i].layers[l].samples` (`|| 0` in the source). -/
def mpegSamples (versionIdx layerBits : Nat) : Nat :=
  match versionIdx, layerBits with
  | 3, 1 => 1152
  | 3, 2 => 1152
  | 3, 3 => 384
  | 0, 1 => 576
  | 0, 2 => 1152
  | 0, 3 => 384
  | 2, 1 => 576
  | 2, 2 => 1152
  | 2, 3 => 384
  | _, _ => 0

/-- `layerInfos[l].framePadding`: 4 bytes for Layer I, 1 for II/III. -/
def mpegLayerPadding (layerBits : Nat) : Nat :=
  match layerBits with
  | 3 => 4
  | 1 => 1
  | 2 => 1
  | _ => 0

/-- `mpegVersions[i].layers[l].bitrates[idx]`: index 0 is `undefined`,
index 15 is `-1`. -/
def mpegBitrateTable (versionIdx layerBits idx : Nat) : Option Int :=
  let v1l3 : List (Option Int) :=
    [none, some 32, some 40, some 48, some 56, some 64, some 80, some 96,
     some 112, some 128, some 160, some 192, some 224, some 256, some 320, some (-1)]
  let v1l2 : List (Option Int) :=
    [none, some 32, some 48, some 56, some 64, some 80, some 96, some 112,
     some 128, some 160, some 192, some 224, some 256, some 320, some 384, some (-1)]
  let v1l1 : List (Option Int) :=
    [none, some 32, some 64, some 96, some 128, some 160, some 192, some 224,
     some 256, some 288, some 320, some 352, some 384, some 416, some 448, some (-1)]
  let v2l23 : List (Option Int) :=
    [none, some 8, some 16, some 24, some 32, some 40, some 48, some 56,
     some 64, some 80, some 96, some 112, some 128, some 144, some 160, some (-1)]
  let v2l1 : List (Option Int) :=
    [none, some 32, some 48, some 56, some 64, some 80, some 96, some 112,
     some 128, some 144, some 160, some 176, some 192, some 224, some 256, some (-1)]
  let table : List (Option Int) :=
    match versionIdx, layerBits with
    | 3, 3 => v1l1
    | 3, 2 => v1l2
    | 3, 1 => v1l3
    | 0, 3 => v2l1
    | 0, 2 => v2l23
    | 0, 1 => v2l23
    | 2, 3 => v2l1
    | 2, 2 => v2l23
    | 2, 1 => v2l23
    | _, _ => []
  (table.get? idx).getD none

/-- The fields of a validated raw MPEG header that the claims consult. -/
structure MPEGHeaderRec where
  versionIdx : Nat
  layerBits : Nat
  samples : Nat
  protectionBit : Bool
  bitrate : Int
  sampleRate : Nat
  framePadding : Nat
  isPrivate : Bool
  frameLength : Nat
  channelModeBits : Nat
  modeExtensionBits : Nat
  isCopyrighted : Bool
  isOriginal : Bool
  emphasisIdx : Nat

/-- The validation logic of MPEG `getHeader` on the four header bytes
(cache-miss path), mirroring the source's rejection order. -/
def parseMPEGHeaderBytes (b0 b1 b2 b3 : Nat) : Option MPEGHeaderRec :=
  if b0 ≠ 0xff ∨ b1 < 0xe0 then none else
  let versionIdx := (b1 &&& 0b00011000) >>> 3
  if versionIdx = 1 then none else
  let layerBits := (b1 &&& 0b00000110) >>> 1
  if layerBits = 0 then none else
  let samples := mpegSamples versionIdx layerBits
  let bitrate : Int := (mpegBitrateTable versionIdx layerBits ((b2 &&& 0b11110000) >>> 4)).getD 0
  if bitrate = -1 then none else
  match mpegSampleRates versionIdx ((b2 &&& 0b00001100) >>> 2) with
  | none => none
  | some sampleRate =>
    let framePadding := if b2 &&& 0b00000010 ≠ 0 then mpegLayerPadding layerBits else 0
    let frameLength : Nat := (125 * bitrate.toNat * samples) / sampleRate + framePadding
    if frameLength = 0 then none else
    if b3 &&& 0b00000011 = 2 then none else
    some
      { versionIdx := versionIdx
        layerBits := layerBits
        samples := samples
        protectionBit := b1 &&& 0b00000001 ≠ 0
        bitrate := bitrate
        sampleRate := sampleRate
        framePadding := framePadding
        isPrivate := b2 &&& 0b00000001 ≠ 0
        frameLength := frameLength
        channelModeBits := b3 &&& 0b11000000
        modeExtensionBits := b3 &&& 0b00110000
        isCopyrighted := b3 &&& 0b00001000 ≠ 0
        isOriginal := b3 &&& 0b00000100 ≠ 0
        emphasisIdx := b3 &&& 0b00000011 }

theorem mpegBitrateTable_at15 {v l : Nat} (hv3 : v ≤ 3) (hl3 : l ≤ 3)
    (hv : v ≠ 1) (hl : l ≠ 0) : (mpegBitrateTable v l 15).getD 0 = -1 := by
  have hvc : v = 0 ∨ v = 2 ∨ v = 3 := by omega
  have hlc : l = 1 ∨ l = 2 ∨ l = 3 := by omega
  rcases hvc with rfl | rfl | rfl <;> rcases hlc with rfl | rfl | rfl <;> rfl

theorem mpegBitrateTable_at0 {v l : Nat} (hv3 : v ≤ 3) (hl3 : l ≤ 3)
    (hv : v ≠ 1) (hl : l ≠ 0) : (mpegBitrateTable v l 0).getD 0 = 0 := by
  have hvc : v = 0 ∨ v = 2 ∨ v = 3 := by omega
  have hlc : l = 1 ∨ l = 2 ∨ l = 3 := by omega
  rcases hvc with rfl | rfl | rfl <;> rcases hlc with rfl | rfl | rfl <;> rfl

theorem and_shiftRight_le_three_of_24 (b : Nat) : (b &&& 24) >>> 3 ≤ 3 := by
  have h1 : b &&& 24 ≤ 24 := Nat.and_le_right
  rw [Nat.shiftRight_eq_div_pow]
  omega

theorem and_shiftRight_le_three_of_6 (b : Nat) : (b &&& 6) >>> 1 ≤ 3 := by
  have h1 : b &&& 6 ≤ 6 := Nat.and_le_right
  rw [Nat.shiftRight_eq_div_pow]
  omega

/-- C7 counterexample: the candidate `FF FB 06 00` has bitrate index 0x0
and the padding bit set; the parser accepts it (bitrate 0, frame length
1), so bitrate-index 0x0 is not rejected regardless of the other fields. -/
theorem claim_C7_counterexample :
    ((0x06 &&& 0b11110000) >>> 4 = 0) ∧
      (parseMPEGHeaderBytes 0xff 0xfb 0x06 0x00).isSome = true := by
  exact ⟨rfl, by decide⟩

/-- C7 (amended): a 4-byte candidate with bitrate index 0xF is always
rejected; one with bitrate index 0x0 is rejected when the padding bit is
clear (the computed frame length is then zero).  With bitrate index 0x0
and the padding bit set the candidate can be accepted with bitrate 0, as
the counterexample shows. -/
theorem claim_C7_bitrate_index_rejection (b0 b1 b2 b3 : Nat)
    (hidx : (b2 &&& 0b11110000) >>> 4 = 15 ∨
      ((b2 &&& 0b11110000) >>> 4 = 0 ∧ b2 &&& 0b00000010 = 0)) :
    parseMPEGHeaderBytes b0 b1 b2 b3 = none := by
  unfold parseMPEGHeaderBytes
  by_cases hs : b0 ≠ 0xff ∨ b1 < 0xe0
  · rw [if_pos hs]
  · rw [if_neg hs]
    by_cases hv : (b1 &&& 0b00011000) >>> 3 = 1
    · rw [if_pos hv]
    · rw [if_neg hv]
      by_cases hl : (b1 &&& 0b00000110) >>> 1 = 0
      · rw [if_pos hl]
      · rw [if_neg hl]
        rcases hidx with h15 | ⟨h0, hpad⟩
        · rw [h15]
          rw [if_pos (mpegBitrateTable_at15 (and_shiftRight_le_three_of_24 b1)
            (and_shiftRight_le_three_of_6 b1) hv hl)]
        · rw [h0]
          rw [if_neg (show ¬ (mpegBitrateTable ((b1 &&& 0b00011000) >>> 3)
              ((b1 &&& 0b00000110) >>> 1) 0).getD 0 = -1 from by
            rw [mpegBitrateTable_at0 (and_shiftRight_le_three_of_24 b1)
              (and_shiftRight_le_three_of_6 b1) hv hl]
            decide)]
          cases hsr : mpegSampleRates ((b1 &&& 0b00011000) >>> 3)
              ((b2 &&& 0b00001100) >>> 2) with
          | none => rfl
          | some sampleRate =>
            rw [mpegBitrateTable_at0 (and_shiftRight_le_three_of_24 b1)
              (and_shiftRight_le_three_of_6 b1) hv hl]
            rw [if_neg (show ¬ b2 &&& 0b00000010 ≠ 0 from by simp [hpad])]
            simp

/-- Witness for C7 (amended): bitrate index 0xF is rejected at a concrete
header candidate. -/
theorem claim_C7_witness :
    ((0xf0 &&& 0b11110000) >>> 4 = 15 ∨
      ((0xf0 &&& 0b11110000) >>> 4 = 0 ∧ 0xf0 &&& 0b00000010 = 0)) ∧
      parseMPEGHeaderBytes 0xff 0xfb 0xf0 0x00 = none :=
  ⟨Or.inl (by decide),
    claim_C7_bitrate_index_rejection 0xff 0xfb 0xf0 0x00 (Or.inl (by decide))⟩

/-! ## AAC ADTS header decoding (src/codecs/aac/AACHeader.ts, makeHeader) -/

/-- The MPEG-4 sampling frequency table; indexes 13-15 are absent. -/
def aacSampleRates : List Nat :=
  [96000, 88200, 64000, 48000, 44100, 32000, 24000, 22050, 16000, 12000,
   11025, 8000, 7350]

/-- `channelModes[i].channels`. -/
def aacChannels : List Nat := [0, 1, 2, 3, 4, 5, 6, 8]

/-- The static fields decoded by `makeHeader` from the first seven ADTS
bytes. -/
structure AACHeaderRec where
  mpegVersion : Nat
  protection : Bool
  length : Nat
  profileBits : Nat
  sampleRateBits : Nat
  sampleRate : Nat
  isPrivate : Bool
  channelModeBits : Nat
  channels : Nat
  isOriginal : Bool
  isHome : Bool
  copyrightId : Bool
  copyrightIdStart : Bool
  samples : Nat
  bitDepth : Nat
  numberAACFrames : Nat

/-- `makeHeader(data)` from `AACHeader.ts`: note that `isHome` and
`copyrightId` are both read from `data[3] & 0b00001000`, exactly as in
the source. -/
def makeAACHeader (b0 b1 b2 b3 _b4 _b5 b6 : Nat) : Option AACHeaderRec :=
  if b0 ≠ 0xff ∨ b1 < 0xf0 then none else
  let mpegVersion := if b1 &&& 0b00001000 ≠ 0 then 2 else 4
  if b1 &&& 0b00000110 ≠ 0 then none else
  let protectionBit := b1 &&& 0b00000001
  let sampleRateBits := (b2 &&& 0b00111100) >>> 2
  match aacSampleRates.get? sampleRateBits with
  | none => none
  | some sampleRate =>
    let channelModeBits := (((b2 <<< 8) ||| b3) &&& 0b111000000) >>> 6
    some
      { mpegVersion := mpegVersion
        protection := protectionBit = 0
        length := if protectionBit ≠ 0 then 7 else 9
        profileBits := (b2 &&& 0b11000000) >>> 6
        sampleRateBits := sampleRateBits
        sampleRate := sampleRate
        isPrivate := b2 &&& 0b00000010 ≠ 0
        channelModeBits := channelModeBits
        channels := aacChannels.getD channelModeBits 0
        isOriginal := b3 &&& 0b00100000 ≠ 0
        isHome := b3 &&& 0b00001000 ≠ 0
        copyrightId := b3 &&& 0b00001000 ≠ 0
        copyrightIdStart := b3 &&& 0b00000100 ≠ 0
        samples := 1024
        bitDepth := 16
        numberAACFrames := b6 &&& 0b00000011 }

/-- C8: the code decodes `isHome` and `copyrightId` from the same bit.
At the accepted ADTS header `FF F1 50 04 00 1F FC` (fourth byte `0x04`:
bit 2 set, bit 3 clear), the code yields `copyrightId = false` — the
claim's decoding from bit 2 (`0b00000100`) would give `true` — and for
every accepted header the two booleans coincide by construction, so no
input makes them differ. -/
theorem claim_C8_isHome_copyrightId_same_bit :
    (0x04 &&& 0b00001000 = 0) ∧ (0x04 &&& 0b00000100 ≠ 0) ∧
      ((makeAACHeader 0xff 0xf1 0x50 0x04 0x00 0x1f 0xfc).map
        (fun h => (h.isHome, h.copyrightId)) = some (false, false)) := by
  decide

/-! ## Ogg page segments and continued-packet stitching
(src/containers/ogg/OggParser.ts, parseFrame) -/

/-- Building the segment views from the segment table:
`pageSegmentTable.map((len) => data.subarray(offset, offset += len))`. -/
def segmentsOf (offset : Nat) (data : List Nat) : List Nat → List (List Nat)
  | [] => []
  | len :: rest => (data.drop offset).take len :: segmentsOf (offset + len) data rest

/-- The parser state after a page: its (possibly shortened) segment list
and the continued-packet buffer. -/
structure OggStitchResult where
  segments : List (List Nat)
  continuedPacket : List Nat

/-- The continued-packet logic of `OggParser.parseFrame`: if the last
lacing byte is 255, pop the terminal segment into the continued-packet
buffer; otherwise, if the buffer is non-empty, prepend it to the first
segment and clear it.  (When the segment list is empty the JS code would
fault on `segments[0]`; the model leaves it empty.) -/
def oggStitch (continuedPacket : List Nat) (pageSegmentBytes : List Nat)
    (segments : List (List Nat)) : OggStitchResult :=
  if pageSegmentBytes.getLast? = some 0xff then
    { segments := segments.dropLast
      continuedPacket := concatBuffers continuedPacket ((segments.getLast?).getD []) }
  else if continuedPacket.length ≠ 0 then
    { segments :=
        match segments with
        | [] => []
        | s0 :: rest => concatBuffers continuedPacket s0 :: rest
      continuedPacket := [] }
  else
    { segments := segments, continuedPacket := continuedPacket }

/-- Segment building followed by stitching, as performed per page. -/
def oggProcessPage (continuedPacket : List Nat) (data : List Nat)
    (pageSegmentBytes pageSegmentTable : List Nat) : OggStitchResult :=
  oggStitch continuedPacket pageSegmentBytes (segmentsOf 0 data pageSegmentTable)

/-- C5: per-page stitching behaviour, and reconstitution of a packet
split across two pages.  (1) If the last lacing byte is 255 the terminal
segment is removed and appended to the continued-packet buffer.  (2)
Otherwise a non-empty buffer is prepended to the first segment and
cleared.  (3) Across pages A then B (A ends in a 255 lacing byte, B does
not), B's first emitted segment is exactly A's trailing continued bytes
followed by B's own first segment. -/
theorem claim_C5_continued_packet_stitching
    (cp : List Nat) (bytes : List Nat) (segs : List (List Nat))
    (s0 : List Nat) (rest : List (List Nat))
    (bytesA : List Nat) (segsA : List (List Nat)) (lastA : List Nat)
    (bytesB : List Nat) (s0B : List Nat) (restB : List (List Nat))
    (hA : bytesA.getLast? = some 0xff) (hAlast : segsA.getLast? = some lastA)
    (hAne : lastA ≠ []) (hB : bytesB.getLast? ≠ some 0xff) :
    (bytes.getLast? = some 0xff →
      oggStitch cp bytes segs =
        { segments := segs.dropLast
          continuedPacket := cp ++ (segs.getLast?).getD [] }) ∧
    (bytes.getLast? ≠ some 0xff → cp ≠ [] →
      oggStitch cp bytes (s0 :: rest) =
        { segments := (cp ++ s0) :: rest, continuedPacket := [] }) ∧
    ((oggStitch ((oggStitch [] bytesA segsA).continuedPacket) bytesB
        (s0B :: restB)).segments = (lastA ++ s0B) :: restB ∧
      (oggStitch ((oggStitch [] bytesA segsA).continuedPacket) bytesB
        (s0B :: restB)).continuedPacket = []) := by
  refine ⟨?_, ?_, ?_⟩
  · intro h
    unfold oggStitch
    rw [if_pos h]
    rfl
  · intro h hcp
    unfold oggStitch
    rw [if_neg h, if_pos (by simpa [List.length_eq_zero] using hcp)]
    rfl
  · have hstep : (oggStitch [] bytesA segsA).continuedPacket = lastA := by
      unfold oggStitch
      rw [if_pos hA]
      show concatBuffers [] _ = _
      rw [hAlast]
      rfl
    rw [hstep]
    unfold oggStitch
    rw [if_neg hB, if_pos (by simpa [List.length_eq_zero] using hAne)]
    exact ⟨rfl, rfl⟩

/-! ## FLAC native framing (src/codecs/flac/FLACFrame.ts)

`checkFrameFooterCrc16` is in the source; `FLACHeader.getHeader` is not
under `src/` (only its callers are), so header parsing is an abstract
parameter `getHdr : Nat → Option Nat`, mapping a read offset in the
current buffer to the parsed header's byte length when a valid FLAC
header parses there.  Modelled from the spec: `getFLACHeader` decodes a
variable-length header and reports its length. -/

/-- `getFrameFooterCrc16(data)`: the last two bytes big-endian. -/
def getFrameFooterCrc16 (data : List Nat) : Nat :=
  (data.getD (data.length - 2) 0) <<< 8 + data.getD (data.length - 1) 0

/-- `checkFrameFooterCrc16(data)`: the FLAC CRC-16 over all but the last
two bytes must equal those two bytes big-endian. -/
def checkFrameFooterCrc16 (data : List Nat) : Bool :=
  getFrameFooterCrc16 data == flacCrc16 (data.take (data.length - 2))

/-- `FLACParser._getNextFrameSyncOffset(offset)`: scan for `FF F8` or
`FF F9` up to two bytes before the end of the available data. -/
def getNextFrameSyncOffset (data : List Nat) (offset : Nat) : Nat :=
  if offset < data.length - 2 then
    if data.getD offset 0 = 0xff then
      if data.getD (offset + 1) 0 = 0xf8 ∨ data.getD (offset + 1) 0 = 0xf9 then offset
      else if data.getD (offset + 1) 0 ≠ 0xff then
        getNextFrameSyncOffset data (offset + 2)
      else getNextFrameSyncOffset data (offset + 1)
    else getNextFrameSyncOffset data (offset + 1)
  else offset
termination_by data.length - 2 - offset

theorem getNextFrameSyncOffset_ge (data : List Nat) :
    ∀ offset, offset ≤ getNextFrameSyncOffset data offset := by
  intro offset
  induction offset using getNextFrameSyncOffset.induct data with
  | case1 offset h1 h2 h3 =>
    rw [getNextFrameSyncOffset, if_pos h1, if_pos h2, if_pos h3]
  | case2 offset h1 h2 h3 h4 ih =>
    rw [getNextFrameSyncOffset, if_pos h1, if_pos h2, if_neg h3, if_pos h4]
    omega
  | case3 offset h1 h2 h3 h4 ih =>
    rw [getNextFrameSyncOffset, if_pos h1, if_pos h2, if_neg h3, if_neg h4]
    omega
  | case4 offset h1 h2 ih =>
    rw [getNextFrameSyncOffset, if_pos h1, if_neg h2]
    omega
  | case5 offset h1 =>
    rw [getNextFrameSyncOffset, if_neg h1]

/-- The inner confirmation loop of `FLACParser.parseFrame`: starting from
a candidate `nextOffset`, emit the first candidate whose (flushing or)
next-header check and footer CRC-16 both pass; otherwise move to the next
sync candidate.  Returns the emitted frame's data and its length
(`nextOffset`, the amount consumed). -/
def flacInnerLoop (getHdr : Nat → Option Nat) (data : List Nat) (flushing : Bool)
    (nextOffset : Nat) : Option (List Nat × Nat) :=
  if h : nextOffset ≤ 524288 then
    if flushing = true ∨ (getHdr nextOffset).isSome = true then
      if checkFrameFooterCrc16 (if flushing = true then data else data.take nextOffset) then
        some ((if flushing = true then data else data.take nextOffset), nextOffset)
      else flacInnerLoop getHdr data flushing (getNextFrameSyncOffset data (nextOffset + 1))
    else flacInnerLoop getHdr data flushing (getNextFrameSyncOffset data (nextOffset + 1))
  else none
termination_by 524289 - nextOffset
decreasing_by
  · have := getNextFrameSyncOffset_ge data (nextOffset + 1)
    omega
  · have := getNextFrameSyncOffset_ge data (nextOffset + 1)
    omega

/-- One position of the outer loop of `FLACParser.parseFrame`: emit only
when a header parses at offset 0, searching from `headerLength +
MIN_FLAC_FRAME_SIZE`. -/
def flacParseFrameAt (getHdr : Nat → Option Nat) (data : List Nat)
    (flushing : Bool) : Option (List Nat × Nat) :=
  match getHdr 0 with
  | none => none
  | some hdrLen => flacInnerLoop getHdr data flushing (hdrLen + 2)

theorem flacInnerLoop_sound (getHdr : Nat → Option Nat) (data : List Nat)
    (flushing : Bool) :
    ∀ start fd off, flacInnerLoop getHdr data flushing start = some (fd, off) →
      start ≤ off ∧ off ≤ 524288 ∧
        (flushing = true ∨ (getHdr off).isSome = true) ∧
        checkFrameFooterCrc16 fd = true ∧
        fd = (if flushing = true then data else data.take off) := by
  intro start
  induction start using flacInnerLoop.induct getHdr data flushing with
  | case1 start h1 h2 h3 =>
    intro fd off hres
    rw [flacInnerLoop, dif_pos h1, if_pos h2,
      if_pos (show checkFrameFooterCrc16
        (if flushing = true then data else data.take start) = true from h3)] at hres
    obtain ⟨rfl, rfl⟩ : (if flushing = true then data else data.take start) = fd ∧
        start = off := by
      have := Option.some.inj hres
      exact ⟨congrArg Prod.fst this, congrArg Prod.snd this⟩
    exact ⟨Nat.le_refl _, h1, h2, h3, rfl⟩
  | case2 start h1 h2 h3 ih =>
    intro fd off hres
    rw [flacInnerLoop, dif_pos h1, if_pos h2,
      if_neg (show ¬ checkFrameFooterCrc16
        (if flushing = true then data else data.take start) = true from h3)] at hres
    have h := ih fd off hres
    have := getNextFrameSyncOffset_ge data (start + 1)
    exact ⟨by omega, h.2⟩
  | case3 start h1 h2 ih =>
    intro fd off hres
    rw [flacInnerLoop, dif_pos h1, if_neg h2] at hres
    have h := ih fd off hres
    have := getNextFrameSyncOffset_ge data (start + 1)
    exact ⟨by omega, h.2⟩
  | case4 start h1 =>
    intro fd off hres
    rw [flacInnerLoop, dif_neg h1] at hres
    exact Option.noConfusion hres

/-- C4: the native FLAC parser emits a frame of length `off` from the
current position only if (a) a valid FLAC header parses at offset 0 with
`headerLength + 2 ≤ off`, (b) `off ≤ 512 KiB` and either flushing or a
valid FLAC header parses at offset `off`, and (c) the footer CRC-16 of
the emitted bytes checks out; moreover a failed footer CRC-16 at a
candidate offset makes the search continue at the next sync candidate,
and any frame then emitted is emitted at a strictly larger offset. -/
theorem claim_C4_flac_emission_conditions (getHdr : Nat → Option Nat)
    (data : List Nat) (flushing : Bool) (fd : List Nat) (off : Nat)
    (hres : flacParseFrameAt getHdr data flushing = some (fd, off)) :
    ((∃ hdrLen, getHdr 0 = some hdrLen ∧ hdrLen + 2 ≤ off) ∧
      off ≤ 524288 ∧
      (flushing = true ∨ (getHdr off).isSome = true) ∧
      checkFrameFooterCrc16 fd = true ∧
      fd = (if flushing = true then data else data.take off)) ∧
    (∀ cand, cand ≤ 524288 →
      (flushing = true ∨ (getHdr cand).isSome = true) →
      checkFrameFooterCrc16 (if flushing = true then data else data.take cand) = false →
      flacInnerLoop getHdr data flushing cand =
        flacInnerLoop getHdr data flushing (getNextFrameSyncOffset data (cand + 1)) ∧
      (∀ fd2 off2, flacInnerLoop getHdr data flushing cand = some (fd2, off2) →
        cand < off2)) := by
  constructor
  · unfold flacParseFrameAt at hres
    cases h0 : getHdr 0 with
    | none => rw [h0] at hres; exact Option.noConfusion hres
    | some hdrLen =>
      rw [h0] at hres
      have h := flacInnerLoop_sound getHdr data flushing (hdrLen + 2) fd off hres
      exact ⟨⟨hdrLen, rfl, h.1⟩, h.2⟩
  · intro cand hle hhdr hcrc
    have heq : flacInnerLoop getHdr data flushing cand =
        flacInnerLoop getHdr data flushing (getNextFrameSyncOffset data (cand + 1)) := by
      rw [flacInnerLoop, dif_pos hle, if_pos hhdr, if_neg (by rw [hcrc]; exact
        Bool.false_ne_true)]
    refine ⟨heq, ?_⟩
    intro fd2 off2 hres2
    rw [heq] at hres2
    have h := flacInnerLoop_sound getHdr data flushing _ fd2 off2 hres2
    have := getNextFrameSyncOffset_ge data (cand + 1)
    omega

/-- Witness for C4 at a concrete buffer: a 6-byte frame whose footer
CRC-16 is correct (`flacCrc16 [255,248,105,24] = 0x761E`), with a 4-byte
header at offset 0 and a header at offset 6; the loop emits it with
length 6. -/
theorem claim_C4_witness :
    (flacParseFrameAt
        (fun off => if off = 0 then some 4 else if off = 6 then some 4 else none)
        [255, 248, 105, 24, 118, 30, 255, 248] false =
      some ([255, 248, 105, 24, 118, 30], 6)) ∧
      checkFrameFooterCrc16 [255, 248, 105, 24, 118, 30] = true := by
  have hrun : flacParseFrameAt
      (fun off => if off = 0 then some 4 else if off = 6 then some 4 else none)
      [255, 248, 105, 24, 118, 30, 255, 248] false =
      some ([255, 248, 105, 24, 118, 30], 6) := by
    show flacInnerLoop _ _ false 6 = _
    rw [flacInnerLoop]
    rw [dif_pos (by norm_num)]
    rw [if_pos (Or.inr (by decide))]
    rw [if_pos (by decide)]
    rfl
  exact ⟨hrun, (claim_C4_flac_emission_conditions _ _ false _ 6 hrun).1.2.2.2.1⟩

/-- Witness for C5: a two-page Vorbis-style split packet at concrete
byte lists.  Page A has lacing bytes `[255]` and one segment `[1, 2]`;
page B has lacing bytes `[2]` and first segment `[3, 4]`; the stitched
first segment of B is `[1, 2, 3, 4]`. -/
theorem claim_C5_witness :
    (([255] : List Nat).getLast? = some 0xff ∧
      (([[1, 2]] : List (List Nat)).getLast? = some [1, 2]) ∧
      ([1, 2] : List Nat) ≠ [] ∧ (([2] : List Nat).getLast? ≠ some 0xff)) ∧
      (oggStitch ((oggStitch [] [255] [[1, 2]]).continuedPacket) [2]
        ([3, 4] :: [])).segments = [[1, 2, 3, 4]] :=
  ⟨⟨by decide, by decide, by decide, by decide⟩,
    (claim_C5_continued_packet_stitching [] [] [] [] [] [255] [[1, 2]] [1, 2]
      [2] [3, 4] [] (by decide) (by decide) (by decide) (by decide)).2.2.1⟩

/-! ## The CodecParser driver: generator semantics
(src/CodecParser.ts: parseChunk, flush, parseAll, readRawData,
incrementRawData)

The parser coroutine (the loop in `_getGenerator`) interacts with the
driver only through `readRawData`, `incrementRawData` and `yield frame`,
so it is modelled as a state machine whose `step` produces the next such
action.  Between external calls the generator is always suspended at the
`const newData = yield` inside a pending `readRawData(minSize,
readOffset)`. -/

/-- One action of the parser coroutine: a `readRawData(minSize,
readOffset)` call whose continuation receives
`rawData.subarray(readOffset)`, an `incrementRawData(increment)` call,
or a `yield frame`. -/
inductive Act (σ Fr : Type) where
  | read (minSize readOffset : Nat) (k : List Nat → σ)
  | incr (increment : Nat) (k : σ)
  | emit (frame : Fr) (k : σ)

/-- A parser machine: `step` gives the next action from a parser state,
the `Bool` being `isFlushing` at the moment the action is taken; `init`
is the state at the top of `_getGenerator`'s parsing loop. -/
structure Machine (σ Fr : Type) where
  step : Bool → σ → Act σ Fr
  init : σ

/-- A suspension inside `readRawData(m, o)` at `const newData = yield`:
the `while` loop re-checks `rawData.length <= m + o` on every resume and
hands `rawData.subarray(o)` to the continuation `k` once satisfied. -/
structure Sus (σ : Type) where
  m : Nat
  o : Nat
  k : List Nat → σ

/-- The externally visible `CodecParser` state between calls: the
buffered `_rawData` plus the generator's suspension. -/
structure Drv (σ : Type) where
  buf : List Nat
  sus : Sus σ

variable {σ Fr : Type}

/-- Drive the coroutine outside of `flush` until it suspends on a
`readRawData` with `rawData.length <= minSize + readOffset`, collecting
the yielded frames.  `incrementRawData` is `subarray(increment)`, hence
the clamped `List.drop`.  The fuel bounds the number of actions. -/
def runNF (M : Machine σ Fr) : Nat → List Nat → σ → Option (List Fr × List Nat × Sus σ)
  | 0, _, _ => none
  | fuel + 1, buf, s =>
    match M.step false s with
    | Act.read m o k =>
      if m + o < buf.length then runNF M fuel buf (k (buf.drop o))
      else some ([], buf, ⟨m, o, k⟩)
    | Act.incr n k => runNF M fuel (buf.drop n) k
    | Act.emit f k => (runNF M fuel buf k).map fun r => (f :: r.1, r.2)

/-- `parseChunk(chunk)`: resume the pending read with the chunk appended
(`concatBuffers`), then drain yielded frames until the generator
suspends again on an unsatisfied read. -/
def parseChunkM (M : Machine σ Fr) (fuel : Nat) (d : Drv σ) (chunk : List Nat) :
    Option (List Fr × Drv σ) :=
  if d.sus.m + d.sus.o < (concatBuffers d.buf chunk).length then
    (runNF M fuel (concatBuffers d.buf chunk)
        (d.sus.k ((concatBuffers d.buf chunk).drop d.sus.o))).map
      fun r => (r.1, ⟨r.2.1, r.2.2⟩)
  else some ([], ⟨concatBuffers d.buf chunk, d.sus⟩)

/-- Drive the coroutine during `flush()`: every action sees
`isFlushing = true`, and a read that cannot be satisfied suspends
yielding `undefined`, which ends `flush`'s drive loop. -/
def runFlush (M : Machine σ Fr) : Nat → List Nat → σ → Option (List Fr)
  | 0, _, _ => none
  | fuel + 1, buf, s =>
    match M.step true s with
    | Act.read m o k =>
      if m + o < buf.length then runFlush M fuel buf (k (buf.drop o))
      else some []
    | Act.incr n k => runFlush M fuel (buf.drop n) k
    | Act.emit f k => (runFlush M fuel buf k).map fun fs => f :: fs

/-- The frames yielded by `flush()`'s drive loop: its first `next()`
resumes the pending read, which returns the (possibly short)
`subarray(readOffset)` because `_flushing` is set. -/
def flushM (M : Machine σ Fr) (fuel : Nat) (d : Drv σ) : Option (List Fr) :=
  runFlush M fuel d.buf (d.sus.k (d.buf.drop d.sus.o))

/-- The constructor's `this._generator.next()`: run from the top of
`_getGenerator` with an empty buffer to the first suspension (the value
yielded by that first `next()` is discarded). -/
def initDrvM (M : Machine σ Fr) (fuel : Nat) : Option (Drv σ) :=
  (runNF M fuel [] M.init).map fun r => ⟨r.2.1, r.2.2⟩

/-- `parseAll(fileData)`, which the source defines as
`[...this.parseChunk(fileData), ...this.flush()]`. -/
def parseAllM (M : Machine σ Fr) (fuel : Nat) (bytes : List Nat) : Option (List Fr) :=
  (initDrvM M fuel).bind fun d0 =>
    (parseChunkM M fuel d0 bytes).bind fun r =>
      (flushM M fuel r.2).map fun fs2 => r.1 ++ fs2

/-- Successive `parseChunk` calls delivering a list of chunks. -/
def runChunksM (M : Machine σ Fr) (fuel : Nat) : Drv σ → List (List Nat) → Option (List Fr × Drv σ)
  | d, [] => some ([], d)
  | d, c :: cs =>
    (parseChunkM M fuel d c).bind fun r =>
      (runChunksM M fuel r.2 cs).map fun r2 => (r.1 ++ r2.1, r2.2)

/-- Chunked delivery of an input: the chunks one `parseChunk` call at a
time, then one `flush()`. -/
def parseAllChunkedM (M : Machine σ Fr) (fuel : Nat) (cs : List (List Nat)) :
    Option (List Fr) :=
  (initDrvM M fuel).bind fun d0 =>
    (runChunksM M fuel d0 cs).bind fun r =>
      (flushM M fuel r.2).map fun fs2 => r.1 ++ fs2

/-- `flush()` including its epilogue: after the drive loop the flag is
cleared and `_generator` is replaced by a fresh `_getGenerator()` run to
its first suspension, with a fresh header cache. -/
def flushDrvM (M : Machine σ Fr) (fuel : Nat) (d : Drv σ) : Option (List Fr × Drv σ) :=
  (flushM M fuel d).bind fun fs => (initDrvM M fuel).map fun d0 => (fs, d0)

/-- Bounded reads: the continuation of a `readRawData(m, o)` call uses
only the `m + 1` bytes a satisfied read is guaranteed to return.  The
fixed-length parsers index the returned view only within the requested
size, so their continuations factor through this take. -/
def ReadsBounded (M : Machine σ Fr) : Prop :=
  ∀ (fl : Bool) (s : σ) (m o : Nat) (k : List Nat → σ),
    M.step fl s = Act.read m o k → ∀ v, k v = k (v.take (m + 1))

/-- An invariant certifying that `incrementRawData` never runs past the
buffered data: `Inv s L` reads "parser state `s` is consistent with `L`
buffered bytes". -/
structure SafeMachine (M : Machine σ Fr) (Inv : σ → Nat → Prop) : Prop where
  mono : ∀ s L L', Inv s L → L ≤ L' → Inv s L'
  init : ∀ L, Inv M.init L
  read : ∀ fl s m o k L, M.step fl s = Act.read m o k → Inv s L →
    ∀ v, v.length + o = L → m + o < L → Inv (k v) L
  incr : ∀ fl s n k L, M.step fl s = Act.incr n k → Inv s L →
    n ≤ L ∧ Inv k (L - n)
  emit : ∀ fl s f k L, M.step fl s = Act.emit f k → Inv s L → Inv k L

/-- Well-formedness of a driver state: the pending suspension was
produced by a machine step from an invariant-satisfying state, and it is
genuinely pending (`rawData.length <= minSize + readOffset`). -/
def DrvOK (M : Machine σ Fr) (Inv : σ → Nat → Prop) (d : Drv σ) : Prop :=
  (∃ s, M.step false s = Act.read d.sus.m d.sus.o d.sus.k ∧ Inv s d.buf.length) ∧
    d.buf.length ≤ d.sus.m + d.sus.o

theorem runNF_succ (M : Machine σ Fr) (F : Nat) (buf : List Nat) (s : σ) :
    runNF M (F + 1) buf s =
      match M.step false s with
      | Act.read m o k =>
        if m + o < buf.length then runNF M F buf (k (buf.drop o))
        else some ([], buf, ⟨m, o, k⟩)
      | Act.incr n k => runNF M F (buf.drop n) k
      | Act.emit f k => (runNF M F buf k).map fun r => (f :: r.1, r.2) := rfl

theorem runNF_read_go (M : Machine σ Fr) (F : Nat) (buf : List Nat) (s : σ) {m o : Nat}
    {k : List Nat → σ} (hstep : M.step false s = Act.read m o k) (hlt : m + o < buf.length) :
    runNF M (F + 1) buf s = runNF M F buf (k (buf.drop o)) := by
  rw [runNF_succ, hstep]
  simp only [if_pos hlt]

theorem runNF_read_stop (M : Machine σ Fr) (F : Nat) (buf : List Nat) (s : σ) {m o : Nat}
    {k : List Nat → σ} (hstep : M.step false s = Act.read m o k) (hle : buf.length ≤ m + o) :
    runNF M (F + 1) buf s = some ([], buf, ⟨m, o, k⟩) := by
  rw [runNF_succ, hstep]
  simp only [if_neg (Nat.not_lt.mpr hle)]

theorem runNF_incr_eq (M : Machine σ Fr) (F : Nat) (buf : List Nat) (s : σ) {n : Nat}
    {k : σ} (hstep : M.step false s = Act.incr n k) :
    runNF M (F + 1) buf s = runNF M F (buf.drop n) k := by
  rw [runNF_succ, hstep]

theorem runNF_emit_eq (M : Machine σ Fr) (F : Nat) (buf : List Nat) (s : σ) {f : Fr}
    {k : σ} (hstep : M.step false s = Act.emit f k) :
    runNF M (F + 1) buf s = (runNF M F buf k).map fun r => (f :: r.1, r.2) := by
  rw [runNF_succ, hstep]

theorem runFlush_succ (M : Machine σ Fr) (F : Nat) (buf : List Nat) (s : σ) :
    runFlush M (F + 1) buf s =
      match M.step true s with
      | Act.read m o k =>
        if m + o < buf.length then runFlush M F buf (k (buf.drop o))
        else some []
      | Act.incr n k => runFlush M F (buf.drop n) k
      | Act.emit f k => (runFlush M F buf k).map fun fs => f :: fs := rfl

theorem runFlush_read_go (M : Machine σ Fr) (F : Nat) (buf : List Nat) (s : σ) {m o : Nat}
    {k : List Nat → σ} (hstep : M.step true s = Act.read m o k) (hlt : m + o < buf.length) :
    runFlush M (F + 1) buf s = runFlush M F buf (k (buf.drop o)) := by
  rw [runFlush_succ, hstep]
  simp only [if_pos hlt]

theorem runFlush_read_stop (M : Machine σ Fr) (F : Nat) (buf : List Nat) (s : σ) {m o : Nat}
    {k : List Nat → σ} (hstep : M.step true s = Act.read m o k) (hle : buf.length ≤ m + o) :
    runFlush M (F + 1) buf s = some [] := by
  rw [runFlush_succ, hstep]
  simp only [if_neg (Nat.not_lt.mpr hle)]

theorem runFlush_incr_eq (M : Machine σ Fr) (F : Nat) (buf : List Nat) (s : σ) {n : Nat}
    {k : σ} (hstep : M.step true s = Act.incr n k) :
    runFlush M (F + 1) buf s = runFlush M F (buf.drop n) k := by
  rw [runFlush_succ, hstep]

theorem runFlush_emit_eq (M : Machine σ Fr) (F : Nat) (buf : List Nat) (s : σ) {f : Fr}
    {k : σ} (hstep : M.step true s = Act.emit f k) :
    runFlush M (F + 1) buf s = (runFlush M F buf k).map fun fs => f :: fs := by
  rw [runFlush_succ, hstep]

theorem runNF_mono (M : Machine σ Fr) :
    ∀ {F F' : Nat}, F ≤ F' → ∀ {buf : List Nat} {s : σ} {r},
      runNF M F buf s = some r → runNF M F' buf s = some r := by
  intro F
  induction F with
  | zero =>
    intro F' _ buf s r h
    exact absurd h (by simp [runNF])
  | succ F ih =>
    intro F' hle buf s r h
    obtain ⟨F'', rfl⟩ : ∃ F'', F' = F'' + 1 := ⟨F' - 1, by omega⟩
    have hle' : F ≤ F'' := by omega
    cases hstep : M.step false s with
    | read m o k =>
      by_cases hc : m + o < buf.length
      · rw [runNF_read_go M F buf s hstep hc] at h
        rw [runNF_read_go M F'' buf s hstep hc]
        exact ih hle' h
      · rw [runNF_read_stop M F buf s hstep (Nat.not_lt.mp hc)] at h
        rw [runNF_read_stop M F'' buf s hstep (Nat.not_lt.mp hc)]
        exact h
    | incr n k =>
      rw [runNF_incr_eq M F buf s hstep] at h
      rw [runNF_incr_eq M F'' buf s hstep]
      exact ih hle' h
    | emit f k =>
      rw [runNF_emit_eq M F buf s hstep] at h
      rw [runNF_emit_eq M F'' buf s hstep]
      rw [Option.map_eq_some'] at h
      obtain ⟨a, ha, hr⟩ := h
      rw [ih hle' ha, Option.map_some']
      rw [hr]

theorem runFlush_mono (M : Machine σ Fr) :
    ∀ {F F' : Nat}, F ≤ F' → ∀ {buf : List Nat} {s : σ} {r},
      runFlush M F buf s = some r → runFlush M F' buf s = some r := by
  intro F
  induction F with
  | zero =>
    intro F' _ buf s r h
    exact absurd h (by simp [runFlush])
  | succ F ih =>
    intro F' hle buf s r h
    obtain ⟨F'', rfl⟩ : ∃ F'', F' = F'' + 1 := ⟨F' - 1, by omega⟩
    have hle' : F ≤ F'' := by omega
    cases hstep : M.step true s with
    | read m o k =>
      by_cases hc : m + o < buf.length
      · rw [runFlush_read_go M F buf s hstep hc] at h
        rw [runFlush_read_go M F'' buf s hstep hc]
        exact ih hle' h
      · rw [runFlush_read_stop M F buf s hstep (Nat.not_lt.mp hc)] at h
        rw [runFlush_read_stop M F'' buf s hstep (Nat.not_lt.mp hc)]
        exact h
    | incr n k =>
      rw [runFlush_incr_eq M F buf s hstep] at h
      rw [runFlush_incr_eq M F'' buf s hstep]
      exact ih hle' h
    | emit f k =>
      rw [runFlush_emit_eq M F buf s hstep] at h
      rw [runFlush_emit_eq M F'' buf s hstep]
      rw [Option.map_eq_some'] at h
      obtain ⟨a, ha, hr⟩ := h
      rw [ih hle' ha, Option.map_some']
      rw [hr]

theorem parseChunkM_mono (M : Machine σ Fr) {F F' : Nat} (hle : F ≤ F') {d : Drv σ}
    {c : List Nat} {r} (h : parseChunkM M F d c = some r) : parseChunkM M F' d c = some r := by
  rw [parseChunkM] at h ⊢
  by_cases hc : d.sus.m + d.sus.o < (concatBuffers d.buf c).length
  · rw [if_pos hc] at h ⊢
    rw [Option.map_eq_some'] at h
    obtain ⟨a, ha, hr⟩ := h
    rw [runNF_mono M hle ha, Option.map_some', hr]
  · rw [if_neg hc] at h ⊢
    exact h

theorem runChunksM_mono (M : Machine σ Fr) {F F' : Nat} (hle : F ≤ F') :
    ∀ {cs : List (List Nat)} {d : Drv σ} {r},
      runChunksM M F d cs = some r → runChunksM M F' d cs = some r := by
  intro cs
  induction cs with
  | nil => intro d r h; exact h
  | cons c cs ih =>
    intro d r h
    rw [runChunksM] at h ⊢
    rw [Option.bind_eq_some] at h
    obtain ⟨a, ha, h2⟩ := h
    rw [parseChunkM_mono M hle ha, Option.some_bind]
    rw [Option.map_eq_some'] at h2
    obtain ⟨b, hb, hr⟩ := h2
    rw [ih hb, Option.map_some', hr]

theorem flushM_mono (M : Machine σ Fr) {F F' : Nat} (hle : F ≤ F') {d : Drv σ} {r}
    (h : flushM M F d = some r) : flushM M F' d = some r :=
  runFlush_mono M hle h

theorem initDrvM_mono (M : Machine σ Fr) {F F' : Nat} (hle : F ≤ F') {d : Drv σ}
    (h : initDrvM M F = some d) : initDrvM M F' = some d := by
  rw [initDrvM] at h ⊢
  rw [Option.map_eq_some'] at h
  obtain ⟨a, ha, hd⟩ := h
  rw [runNF_mono M hle ha, Option.map_some', hd]

theorem runNF_ok (M : Machine σ Fr) {Inv : σ → Nat → Prop} (hS : SafeMachine M Inv) :
    ∀ (F : Nat) (buf : List Nat) (s : σ) {fs : List Fr} {b : List Nat} {sus : Sus σ},
      runNF M F buf s = some (fs, b, sus) → Inv s buf.length →
      DrvOK M Inv ⟨b, sus⟩ := by
  intro F
  induction F with
  | zero =>
    intro buf s fs b sus h
    exact absurd h (by simp [runNF])
  | succ F ih =>
    intro buf s fs b sus h hInv
    cases hstep : M.step false s with
    | read m o k =>
      by_cases hc : m + o < buf.length
      · rw [runNF_read_go M F buf s hstep hc] at h
        refine ih buf (k (buf.drop o)) h ?_
        refine hS.read false s m o k buf.length hstep hInv (buf.drop o) ?_ hc
        rw [List.length_drop]
        omega
      · rw [runNF_read_stop M F buf s hstep (Nat.not_lt.mp hc)] at h
        rw [Option.some.injEq, Prod.mk.injEq, Prod.mk.injEq] at h
        obtain ⟨-, hb, hsus⟩ := h
        subst hb
        subst hsus
        exact ⟨⟨s, hstep, hInv⟩, Nat.not_lt.mp hc⟩
    | incr n k =>
      rw [runNF_incr_eq M F buf s hstep] at h
      obtain ⟨-, hInv'⟩ := hS.incr false s n k buf.length hstep hInv
      refine ih _ _ h ?_
      rw [List.length_drop]
      exact hInv'
    | emit f k =>
      rw [runNF_emit_eq M F buf s hstep] at h
      rw [Option.map_eq_some'] at h
      obtain ⟨⟨fs0, b0, sus0⟩, hr0, heq⟩ := h
      rw [Prod.mk.injEq] at heq
      obtain ⟨-, heq2⟩ := heq
      rw [Prod.mk.injEq] at heq2
      obtain ⟨hb, hsus⟩ := heq2
      subst hb
      subst hsus
      exact ih _ _ hr0 (hS.emit false s f k buf.length hstep hInv)


theorem concatBuffers_eq (a b : List Nat) : concatBuffers a b = a ++ b := rfl

theorem runNF_split (M : Machine σ Fr) {Inv : σ → Nat → Prop} (hS : SafeMachine M Inv)
    (hB : ReadsBounded M) (ext : List Nat) :
    ∀ (F : Nat) (buf : List Nat) (s : σ) {fs : List Fr} {b2 : List Nat} {s2 : Sus σ},
      runNF M F (buf ++ ext) s = some (fs, b2, s2) → Inv s buf.length →
      ∃ fs1 b1 sus1 fs2,
        runNF M F buf s = some (fs1, b1, sus1) ∧ fs = fs1 ++ fs2 ∧
        (((b1 ++ ext).length ≤ sus1.m + sus1.o ∧ fs2 = [] ∧ b2 = b1 ++ ext ∧ s2 = sus1) ∨
          (sus1.m + sus1.o < (b1 ++ ext).length ∧
            runNF M F (b1 ++ ext) (sus1.k ((b1 ++ ext).drop sus1.o)) = some (fs2, b2, s2))) := by
  intro F
  induction F with
  | zero =>
    intro buf s fs b2 s2 h
    exact absurd h (by simp [runNF])
  | succ F ih =>
    intro buf s fs b2 s2 h hInv
    cases hstep : M.step false s with
    | read m o k =>
      by_cases hcE : m + o < (buf ++ ext).length
      · rw [runNF_read_go M F (buf ++ ext) s hstep hcE] at h
        by_cases hc : m + o < buf.length
        · have ho : o ≤ buf.length := by omega
          have hview : (buf ++ ext).drop o = buf.drop o ++ ext :=
            List.drop_append_of_le_length ho
          have hkb := hB false s m o k hstep
          have hko : k ((buf ++ ext).drop o) = k (buf.drop o) := by
            rw [hview, hkb (buf.drop o ++ ext), hkb (buf.drop o)]
            congr 1
            rw [List.take_append_of_le_length (by rw [List.length_drop]; omega)]
          rw [hko] at h
          have hInv' : Inv (k (buf.drop o)) buf.length := by
            refine hS.read false s m o k buf.length hstep hInv (buf.drop o) ?_ hc
            rw [List.length_drop]
            omega
          obtain ⟨fs1, b1, sus1, fs2, h1, hfs, hres⟩ := ih buf (k (buf.drop o)) h hInv'
          refine ⟨fs1, b1, sus1, fs2, ?_, hfs, ?_⟩
          · rw [runNF_read_go M F buf s hstep hc]
            exact h1
          · rcases hres with hres | ⟨hlt, hrun⟩
            · exact Or.inl hres
            · exact Or.inr ⟨hlt, runNF_mono M (Nat.le_succ F) hrun⟩
        · refine ⟨[], buf, ⟨m, o, k⟩, fs,
            runNF_read_stop M F buf s hstep (Nat.not_lt.mp hc), rfl, Or.inr ⟨hcE, ?_⟩⟩
          exact runNF_mono M (Nat.le_succ F) h
      · rw [runNF_read_stop M F (buf ++ ext) s hstep (Nat.not_lt.mp hcE)] at h
        rw [Option.some.injEq, Prod.mk.injEq, Prod.mk.injEq] at h
        obtain ⟨hfs, hb, hsus⟩ := h
        subst hfs
        subst hb
        subst hsus
        have hble : buf.length ≤ m + o := by
          have := List.length_append buf ext
          omega
        refine ⟨[], buf, ⟨m, o, k⟩, [],
          runNF_read_stop M F buf s hstep hble, rfl,
          Or.inl ⟨Nat.not_lt.mp hcE, rfl, rfl, rfl⟩⟩
    | incr n k =>
      rw [runNF_incr_eq M F (buf ++ ext) s hstep] at h
      obtain ⟨hn, hInv'⟩ := hS.incr false s n k buf.length hstep hInv
      have hdrop : (buf ++ ext).drop n = buf.drop n ++ ext :=
        List.drop_append_of_le_length hn
      rw [hdrop] at h
      have hInv'' : Inv k (buf.drop n).length := by
        rw [List.length_drop]
        exact hInv'
      obtain ⟨fs1, b1, sus1, fs2, h1, hfs, hres⟩ := ih (buf.drop n) k h hInv''
      refine ⟨fs1, b1, sus1, fs2, ?_, hfs, ?_⟩
      · rw [runNF_incr_eq M F buf s hstep]
        exact h1
      · rcases hres with hres | ⟨hlt, hrun⟩
        · exact Or.inl hres
        · exact Or.inr ⟨hlt, runNF_mono M (Nat.le_succ F) hrun⟩
    | emit f k =>
      rw [runNF_emit_eq M F (buf ++ ext) s hstep] at h
      rw [Option.map_eq_some'] at h
      obtain ⟨⟨fs0, b0, sus0⟩, hr0, heq⟩ := h
      rw [Prod.mk.injEq, Prod.mk.injEq] at heq
      obtain ⟨hfs0, hb, hsus⟩ := heq
      subst hb
      subst hsus
      obtain ⟨fs1, b1, sus1, fs2, h1, hfs, hres⟩ :=
        ih buf k hr0 (hS.emit false s f k buf.length hstep hInv)
      refine ⟨f :: fs1, b1, sus1, fs2, ?_, ?_, ?_⟩
      · rw [runNF_emit_eq M F buf s hstep, h1, Option.map_some']
      · rw [← hfs0, hfs]
        rfl
      · rcases hres with hres | ⟨hlt, hrun⟩
        · exact Or.inl hres
        · exact Or.inr ⟨hlt, runNF_mono M (Nat.le_succ F) hrun⟩

theorem runChunks_of_join (M : Machine σ Fr) {Inv : σ → Nat → Prop} (hS : SafeMachine M Inv)
    (hB : ReadsBounded M) :
    ∀ (cs : List (List Nat)) (F : Nat) (d : Drv σ) {fs : List Fr} {d' : Drv σ},
      parseChunkM M F d cs.flatten = some (fs, d') → DrvOK M Inv d →
      ∃ F', runChunksM M F' d cs = some (fs, d') := by
  intro cs
  induction cs with
  | nil =>
    intro F d fs d' h hOK
    obtain ⟨-, hpend⟩ := hOK
    rw [List.flatten_nil, parseChunkM] at h
    simp only [concatBuffers_eq, List.append_nil] at h
    rw [if_neg (Nat.not_lt.mpr hpend)] at h
    rw [Option.some.injEq, Prod.mk.injEq] at h
    obtain ⟨hfs, hd'⟩ := h
    subst hfs
    subst hd'
    exact ⟨0, rfl⟩
  | cons c cs ih =>
    intro F d fs d' h hOK
    obtain ⟨⟨s0, hstep0, hInv0⟩, hpend⟩ := hOK
    rw [List.flatten_cons, parseChunkM] at h
    simp only [concatBuffers_eq] at h
    rw [← List.append_assoc] at h
    by_cases hbig : d.sus.m + d.sus.o < ((d.buf ++ c) ++ cs.flatten).length
    case neg =>
      rw [if_neg hbig] at h
      rw [Option.some.injEq, Prod.mk.injEq] at h
      obtain ⟨hfs, hd'⟩ := h
      subst hfs
      subst hd'
      have hsmall : ¬ (d.sus.m + d.sus.o < (d.buf ++ c).length) := by
        have h1 := List.length_append (d.buf ++ c) cs.flatten
        omega
      have h1 : ∀ G, parseChunkM M G d c = some ([], ⟨d.buf ++ c, d.sus⟩) := by
        intro G
        rw [parseChunkM]
        simp only [concatBuffers_eq]
        rw [if_neg hsmall]
      have hOK1 : DrvOK M Inv ⟨d.buf ++ c, d.sus⟩ := by
        refine ⟨⟨s0, hstep0, hS.mono s0 _ _ hInv0 ?_⟩, Nat.not_lt.mp hsmall⟩
        rw [List.length_append]
        omega
      have h2 : parseChunkM M F ⟨d.buf ++ c, d.sus⟩ cs.flatten =
          some ([], ⟨(d.buf ++ c) ++ cs.flatten, d.sus⟩) := by
        rw [parseChunkM]
        simp only [concatBuffers_eq]
        rw [if_neg hbig]
      obtain ⟨F', hF'⟩ := ih F ⟨d.buf ++ c, d.sus⟩ h2 hOK1
      refine ⟨F', ?_⟩
      rw [runChunksM, h1 F', Option.some_bind, hF', Option.map_some']
      rfl
    case pos =>
      rw [if_pos hbig] at h
      rw [Option.map_eq_some'] at h
      obtain ⟨⟨fsr, br, susr⟩, hrun, heq⟩ := h
      rw [Prod.mk.injEq] at heq
      obtain ⟨hfsr, hd'⟩ := heq
      subst hfsr
      subst hd'
      by_cases hc1 : d.sus.m + d.sus.o < (d.buf ++ c).length
      · have ho : d.sus.o ≤ (d.buf ++ c).length := by omega
        have hview : ((d.buf ++ c) ++ cs.flatten).drop d.sus.o =
            (d.buf ++ c).drop d.sus.o ++ cs.flatten :=
          List.drop_append_of_le_length ho
        have hkb := hB false s0 d.sus.m d.sus.o d.sus.k hstep0
        have hko : d.sus.k (((d.buf ++ c) ++ cs.flatten).drop d.sus.o) =
            d.sus.k ((d.buf ++ c).drop d.sus.o) := by
          rw [hview, hkb ((d.buf ++ c).drop d.sus.o ++ cs.flatten),
            hkb ((d.buf ++ c).drop d.sus.o)]
          congr 1
          rw [List.take_append_of_le_length (by rw [List.length_drop]; omega)]
        rw [hko] at hrun
        have hInvσ : Inv (d.sus.k ((d.buf ++ c).drop d.sus.o)) (d.buf ++ c).length := by
          refine hS.read false s0 d.sus.m d.sus.o d.sus.k (d.buf ++ c).length hstep0
            (hS.mono s0 _ _ hInv0 (by rw [List.length_append]; omega)) _ ?_ hc1
          rw [List.length_drop]
          omega
        obtain ⟨fs1, b1, sus1, fs2, h1, hfseq, hres⟩ :=
          runNF_split M hS hB cs.flatten F (d.buf ++ c) _ hrun hInvσ
        have hpc1 : parseChunkM M F d c = some (fs1, ⟨b1, sus1⟩) := by
          rw [parseChunkM]
          simp only [concatBuffers_eq]
          rw [if_pos hc1, h1, Option.map_some']
        have hOK1 : DrvOK M Inv ⟨b1, sus1⟩ := runNF_ok M hS F (d.buf ++ c) _ h1 hInvσ
        have h2 : parseChunkM M F ⟨b1, sus1⟩ cs.flatten = some (fs2, ⟨br, susr⟩) := by
          rw [parseChunkM]
          simp only [concatBuffers_eq]
          rcases hres with ⟨hle, hfs2, hb2, hs2⟩ | ⟨hlt, hresume⟩
          · rw [if_neg (Nat.not_lt.mpr hle)]
            rw [hfs2, hb2, hs2]
          · rw [if_pos hlt, hresume, Option.map_some']
        obtain ⟨F', hF'⟩ := ih F ⟨b1, sus1⟩ h2 hOK1
        refine ⟨max F F', ?_⟩
        rw [runChunksM, parseChunkM_mono M (Nat.le_max_left F F') hpc1, Option.some_bind,
          runChunksM_mono M (Nat.le_max_right F F') hF', Option.map_some', hfseq]
      · have h1 : ∀ G, parseChunkM M G d c = some ([], ⟨d.buf ++ c, d.sus⟩) := by
          intro G
          rw [parseChunkM]
          simp only [concatBuffers_eq]
          rw [if_neg hc1]
        have hOK1 : DrvOK M Inv ⟨d.buf ++ c, d.sus⟩ := by
          refine ⟨⟨s0, hstep0, hS.mono s0 _ _ hInv0 ?_⟩, Nat.not_lt.mp hc1⟩
          rw [List.length_append]
          omega
        have h2 : parseChunkM M F ⟨d.buf ++ c, d.sus⟩ cs.flatten = some (fsr, ⟨br, susr⟩) := by
          rw [parseChunkM]
          simp only [concatBuffers_eq]
          rw [if_pos hbig, hrun, Option.map_some']
        obtain ⟨F', hF'⟩ := ih F ⟨d.buf ++ c, d.sus⟩ h2 hOK1
        refine ⟨F', ?_⟩
        rw [runChunksM, h1 F', Option.some_bind, hF', Option.map_some']
        rfl

/-- C1: `parseAll(bytes)` is exactly the frames of `parseChunk(bytes)`
followed by the frames of `flush()`; and, for a parser machine whose
read continuations use only the bytes a satisfied `readRawData`
guarantees and whose `incrementRawData` calls stay within the buffered
data, delivering the same bytes in any partition into successive
`parseChunk` calls followed by one `flush()` yields the same frame
sequence (chunking-invariance). -/
theorem claim_C1_parse_all_decomposition (M : Machine σ Fr)
    (Inv : σ → Nat → Prop) (hS : SafeMachine M Inv) (hB : ReadsBounded M)
    (F : Nat) (cs : List (List Nat)) (fs : List Fr)
    (h : parseAllM M F cs.flatten = some fs) :
    (∀ d0 r fs2, initDrvM M F = some d0 → parseChunkM M F d0 cs.flatten = some r →
        flushM M F r.2 = some fs2 → fs = r.1 ++ fs2) ∧
    ∃ F', parseAllChunkedM M F' cs = some fs := by
  rw [parseAllM, Option.bind_eq_some] at h
  obtain ⟨d0, hd0, h1⟩ := h
  rw [Option.bind_eq_some] at h1
  obtain ⟨r, hr, h2⟩ := h1
  rw [Option.map_eq_some'] at h2
  obtain ⟨fs2, hfs2, hfseq⟩ := h2
  constructor
  · intro d0' r' fs2' hd0' hr' hfs2'
    rw [hd0] at hd0'
    rw [Option.some.injEq] at hd0'
    subst hd0'
    rw [hr] at hr'
    rw [Option.some.injEq] at hr'
    subst hr'
    rw [hfs2] at hfs2'
    rw [Option.some.injEq] at hfs2'
    subst hfs2'
    exact hfseq.symm
  · have hOK0 : DrvOK M Inv d0 := by
      rw [initDrvM, Option.map_eq_some'] at hd0
      obtain ⟨⟨fs0, b0, sus0⟩, hrun0, heq0⟩ := hd0
      subst heq0
      exact runNF_ok M hS F [] M.init hrun0 (hS.init ([] : List Nat).length)
    obtain ⟨r1, r2⟩ := r
    obtain ⟨F', hF'⟩ := runChunks_of_join M hS hB cs F d0 hr hOK0
    refine ⟨max F F', ?_⟩
    rw [parseAllChunkedM, initDrvM_mono M (Nat.le_max_left F F') hd0, Option.some_bind,
      runChunksM_mono M (Nat.le_max_right F F') hF', Option.some_bind,
      flushM_mono M (Nat.le_max_left F F') hfs2, Option.map_some', hfseq]

/-- Control states of a miniature fixed-length parser used to exercise
the driver model: it reads two-byte frames and emits them verbatim. -/
inductive ToyCtrl where
  | rd
  | em (f : List Nat)
  | inc

/-- The toy read continuation: with at least two bytes in view, take the
two-byte frame; otherwise return to the read state. -/
def toyK (v : List Nat) : ToyCtrl :=
  if 2 ≤ v.length then ToyCtrl.em (v.take 2) else ToyCtrl.rd

/-- The toy parser's step function (it ignores the flushing flag). -/
def toyStep (_ : Bool) (s : ToyCtrl) : Act ToyCtrl (List Nat) :=
  match s with
  | ToyCtrl.rd => Act.read 1 0 toyK
  | ToyCtrl.em f => Act.emit f ToyCtrl.inc
  | ToyCtrl.inc => Act.incr 2 ToyCtrl.rd

/-- The toy machine. -/
def toyM : Machine ToyCtrl (List Nat) := ⟨toyStep, ToyCtrl.rd⟩

/-- The toy machine's buffer-consistency invariant: a pending emission
or increment implies at least two buffered bytes. -/
def toyInv (s : ToyCtrl) (L : Nat) : Prop :=
  match s with
  | ToyCtrl.rd => True
  | ToyCtrl.em _ => 2 ≤ L
  | ToyCtrl.inc => 2 ≤ L

theorem toy_safe : SafeMachine toyM toyInv := by
  constructor
  · intro s L L' h hle
    cases s with
    | rd => exact trivial
    | em f => exact le_trans h hle
    | inc => exact le_trans h hle
  · intro L
    exact trivial
  · intro fl s m o k L hstep hInv v hlen hlt
    cases s with
    | rd =>
      injection hstep with h1 h2 h3
      subst h1
      subst h2
      subst h3
      show toyInv (toyK v) L
      rw [toyK]
      by_cases h2v : 2 ≤ v.length
      · rw [if_pos h2v]
        show 2 ≤ L
        omega
      · rw [if_neg h2v]
        exact trivial
    | em f => exact Act.noConfusion hstep
    | inc => exact Act.noConfusion hstep
  · intro fl s n k L hstep hInv
    cases s with
    | rd => exact Act.noConfusion hstep
    | em f => exact Act.noConfusion hstep
    | inc =>
      injection hstep with h1 h2
      subst h1
      subst h2
      exact ⟨hInv, trivial⟩
  · intro fl s f k L hstep hInv
    cases s with
    | rd => exact Act.noConfusion hstep
    | em g =>
      injection hstep with h1 h2
      subst h2
      exact hInv
    | inc => exact Act.noConfusion hstep

theorem toy_rb : ReadsBounded toyM := by
  intro fl s m o k hstep v
  cases s with
  | rd =>
    injection hstep with h1 h2 h3
    subst h1
    subst h3
    show toyK v = toyK (v.take 2)
    rw [toyK, toyK, List.length_take, List.take_take]
    by_cases h2v : 2 ≤ v.length
    · rw [if_pos h2v, if_pos (by omega), Nat.min_self]
    · rw [if_neg h2v, if_neg (by omega)]
  | em f => exact Act.noConfusion hstep
  | inc => exact Act.noConfusion hstep

/-- Witness for C1: five bytes delivered as `[10] ++ [20,30] ++ [40,50]`
produce the same two frames as the single-shot `parseAll`. -/
theorem claim_C1_witness :
    ∃ F', parseAllChunkedM toyM F' [[10], [20, 30], [40, 50]] =
      some [[10, 20], [30, 40]] :=
  (claim_C1_parse_all_decomposition toyM toyInv toy_safe toy_rb 32
    [[10], [20, 30], [40, 50]] [[10, 20], [30, 40]] (by decide)).2

/-! ## The AAC parser as a driver machine
(src/codecs/aac/AACParser.ts, AACFrame.ts `getFrame`, AACHeader.ts
`getHeader`, CodecFrame.ts `getCodecFrame`, Parser.ts `syncFrame` and
`fixedLengthFrameSync`)

`AACParser.parseFrame` is `fixedLengthFrameSync()` with `ignoreNextFrame`
undefined, i.e. falsy.  JS reads `data[i]` past the view's end give
`undefined`, which the bitwise decoders coerce to 0; `List.getD _ _ 0`
renders this.  (On a one-byte view `[0xff]` the JS guard
`data[1] < 0xf0` compares `undefined` and is false rather than true, but
every such path is also rejected at the `frameLength` zero check, so the
rendering is observably identical.) -/

deriving instance DecidableEq for AACHeaderRec

/-- The cache interaction of `getHeader` in `AACHeader.ts`, as a
function of the seven bytes it reads: `getHeader` on the four-byte
comparison key, else `makeHeader` followed by `setHeader` (the
codec-update field subset is opaque here). -/
def aacLookupBytes (c : CacheState AACHeaderRec) (b0 b1 b2 b3 b4 b5 b6 : Nat) :
    Option AACHeaderRec × CacheState AACHeaderRec :=
  match HeaderCache.getHeader c [b0, b1, b2, (b3 &&& 0b11111100) ||| (b6 &&& 0b00000011)] with
  | (some h, c1) => (some h, c1)
  | (none, c1) =>
    match makeAACHeader b0 b1 b2 b3 b4 b5 b6 with
    | none => (none, c1)
    | some h =>
      (some h, HeaderCache.setHeader c1
        [b0, b1, b2, (b3 &&& 0b11111100) ||| (b6 &&& 0b00000011)] h 0)

/-- `getHeader` from `AACHeader.ts` as a function of the seven bytes of
its view: the cached or freshly parsed static header, then the 13-bit
`frameLength` with its zero rejection (`if (!frameLength) return`).
Returns the header with its frame length, plus the updated cache. -/
def aacHeaderAtBytes (c : CacheState AACHeaderRec) (b0 b1 b2 b3 b4 b5 b6 : Nat) :
    Option (AACHeaderRec × Nat) × CacheState AACHeaderRec :=
  match aacLookupBytes c b0 b1 b2 b3 b4 b5 b6 with
  | (none, c2) => (none, c2)
  | (some h, c2) =>
    if ((b3 <<< 11) ||| (b4 <<< 3) ||| (b5 >>> 5)) &&& 0x1fff = 0 then (none, c2)
    else (some (h, ((b3 <<< 11) ||| (b4 <<< 3) ||| (b5 >>> 5)) &&& 0x1fff), c2)

/-- `getHeader` applied to a `readRawData(7, o)` view. -/
def aacHeaderAt (c : CacheState AACHeaderRec) (v : List Nat) :
    Option (AACHeaderRec × Nat) × CacheState AACHeaderRec :=
  aacHeaderAtBytes c (v.getD 0 0) (v.getD 1 0) (v.getD 2 0) (v.getD 3 0)
    (v.getD 4 0) (v.getD 5 0) (v.getD 6 0)

/-- Control points of the AAC parse loop between driver actions. -/
inductive AACCtrl where
  | sync
  | resync
  | fetchFrame (h : AACHeaderRec) (frameLength : Nat)
  | haveFrame (h : AACHeaderRec) (fd : List Nat) (frameLength : Nat)
  | accept0 (h : AACHeaderRec) (fd : List Nat) (frameLength : Nat)
  | accept1 (h : AACHeaderRec) (fd : List Nat)

/-- The AAC parser's full state: header cache, driver counters, and the
control point. -/
structure AACPState where
  cache : CacheState AACHeaderRec
  stats : DriverStats
  ctrl : AACCtrl

/-- Continuation of `getFrame`'s `readRawData(7, 0)`: a parsed header
proceeds to the frame-data read, a failure falls into `syncFrame`'s
one-byte advance. -/
def aacSyncK (c : CacheState AACHeaderRec) (st : DriverStats) (v : List Nat) : AACPState :=
  match aacHeaderAt c v with
  | (none, c') => ⟨c', st, AACCtrl.resync⟩
  | (some (h, L), c') => ⟨c', st, AACCtrl.fetchFrame h L⟩

/-- Continuation of `getCodecFrame`'s `readRawData(frameLength, 0)`:
`subarray(0, frameLength)` of the view becomes the frame data. -/
def aacFetchK (c : CacheState AACHeaderRec) (st : DriverStats) (h : AACHeaderRec) (L : Nat)
    (v : List Nat) : AACPState :=
  ⟨c, st, AACCtrl.haveFrame h (v.take L) L⟩

/-- Continuation of `fixedLengthFrameSync`'s next-header check
`getHeader(…, frameLength)`: success enables the cache and accepts the
frame; failure resets the cache and advances one byte. -/
def aacChkK (c : CacheState AACHeaderRec) (st : DriverStats) (h : AACHeaderRec)
    (fd : List Nat) (L : Nat) (w : List Nat) : AACPState :=
  match aacHeaderAt c w with
  | (none, c') => ⟨HeaderCache.reset c', st, AACCtrl.resync⟩
  | (some _, c') => ⟨HeaderCache.enable c', st, AACCtrl.accept0 h fd L⟩

/-- One step of the AAC parse loop.  `haveFrame` consults `isFlushing`:
flushing skips the next-header check, otherwise the check read decides;
the accept path is `enable(); incrementRawData(frameLength);
mapFrameStats(frame); yield frame`, with `mapCodecFrameStats` also
invoking `checkCodecUpdate` on the cache. -/
def aacStep (fl : Bool) (s : AACPState) : Act AACPState CodecFrameOut :=
  match s.ctrl with
  | AACCtrl.sync => Act.read 7 0 (aacSyncK s.cache s.stats)
  | AACCtrl.resync => Act.incr 1 ⟨s.cache, s.stats, AACCtrl.sync⟩
  | AACCtrl.fetchFrame h L => Act.read L 0 (aacFetchK s.cache s.stats h L)
  | AACCtrl.haveFrame h fd L =>
    if fl then Act.incr L ⟨HeaderCache.enable s.cache, s.stats, AACCtrl.accept1 h fd⟩
    else Act.read 7 L (aacChkK s.cache s.stats h fd L)
  | AACCtrl.accept0 h fd L => Act.incr L ⟨s.cache, s.stats, AACCtrl.accept1 h fd⟩
  | AACCtrl.accept1 h fd =>
    Act.emit (mapCodecFrameStats s.stats ⟨fd, h.samples, (h.sampleRate : ℚ)⟩).2
      ⟨(HeaderCache.checkCodecUpdate s.cache
          (mapCodecFrameStats s.stats ⟨fd, h.samples, (h.sampleRate : ℚ)⟩).2.headerBitrate
          (mapCodecFrameStats s.stats ⟨fd, h.samples, (h.sampleRate : ℚ)⟩).2.totalDuration).1,
        (mapCodecFrameStats s.stats ⟨fd, h.samples, (h.sampleRate : ℚ)⟩).1, AACCtrl.sync⟩

/-- The AAC parser machine; `hcb` is whether an `onCodecUpdate` callback
was passed to the fresh `HeaderCache`. -/
def aacM (hcb : Bool) : Machine AACPState CodecFrameOut :=
  ⟨aacStep, ⟨HeaderCache.init hcb, initDriverStats, AACCtrl.sync⟩⟩

theorem getD_take (v : List Nat) (i n d : Nat) (h : i < n) :
    (v.take n).getD i d = v.getD i d := by
  rw [List.getD_eq_getElem?_getD, List.getD_eq_getElem?_getD, List.getElem?_take,
    if_pos h]

theorem aacHeaderAt_take8 (c : CacheState AACHeaderRec) (v : List Nat) :
    aacHeaderAt c (v.take 8) = aacHeaderAt c v := by
  rw [aacHeaderAt, aacHeaderAt,
    getD_take v 0 8 0 (by norm_num), getD_take v 1 8 0 (by norm_num),
    getD_take v 2 8 0 (by norm_num), getD_take v 3 8 0 (by norm_num),
    getD_take v 4 8 0 (by norm_num), getD_take v 5 8 0 (by norm_num),
    getD_take v 6 8 0 (by norm_num)]

theorem aac_rb (hcb : Bool) : ReadsBounded (aacM hcb) := by
  intro fl s m o k hstep v
  obtain ⟨c, st, ctrl⟩ := s
  cases ctrl with
  | sync =>
    injection hstep with h1 h2 h3
    subst h1
    subst h3
    show aacSyncK c st v = aacSyncK c st (v.take 8)
    rw [aacSyncK, aacSyncK, aacHeaderAt_take8]
  | resync => exact Act.noConfusion hstep
  | fetchFrame h L =>
    injection hstep with h1 h2 h3
    subst h1
    subst h3
    show aacFetchK c st h L v = aacFetchK c st h L (v.take (L + 1))
    rw [aacFetchK, aacFetchK, List.take_take, Nat.min_eq_left (Nat.le_succ L)]
  | haveFrame h fd L =>
    cases fl with
    | true => exact Act.noConfusion hstep
    | false =>
      injection hstep with h1 h2 h3
      subst h1
      subst h3
      show aacChkK c st h fd L v = aacChkK c st h fd L (v.take 8)
      rw [aacChkK, aacChkK, aacHeaderAt_take8]
  | accept0 h fd L => exact Act.noConfusion hstep
  | accept1 h fd => exact Act.noConfusion hstep

/-- Buffer-consistency invariant for the AAC machine: a frame about to
be skipped over (or a resync advance) is covered by the buffered data. -/
def aacInv (s : AACPState) (L : Nat) : Prop :=
  match s.ctrl with
  | AACCtrl.sync => True
  | AACCtrl.resync => 1 ≤ L
  | AACCtrl.fetchFrame _ _ => True
  | AACCtrl.haveFrame _ _ fL => fL ≤ L
  | AACCtrl.accept0 _ _ fL => fL ≤ L
  | AACCtrl.accept1 _ _ => True

theorem aac_safe (hcb : Bool) : SafeMachine (aacM hcb) aacInv := by
  constructor
  · intro s L L' h hle
    obtain ⟨c, st, ctrl⟩ := s
    cases ctrl with
    | sync => exact trivial
    | resync => exact le_trans h hle
    | fetchFrame h0 L0 => exact trivial
    | haveFrame h0 fd L0 => exact le_trans h hle
    | accept0 h0 fd L0 => exact le_trans h hle
    | accept1 h0 fd => exact trivial
  · intro L
    exact trivial
  · intro fl s m o k L hstep hInv v hlen hlt
    obtain ⟨c, st, ctrl⟩ := s
    cases ctrl with
    | sync =>
      injection hstep with h1 h2 h3
      subst h1
      subst h2
      subst h3
      show aacInv (aacSyncK c st v) L
      rw [aacSyncK]
      rcases hres : aacHeaderAt c v with ⟨res, c'⟩
      cases res with
      | none =>
        show (1 : Nat) ≤ L
        omega
      | some p =>
        obtain ⟨h0, L0⟩ := p
        exact trivial
    | resync => exact Act.noConfusion hstep
    | fetchFrame h0 L0 =>
      injection hstep with h1 h2 h3
      subst h1
      subst h2
      subst h3
      show aacInv (aacFetchK c st h0 L0 v) L
      show L0 ≤ L
      omega
    | haveFrame h0 fd L0 =>
      cases fl with
      | true => exact Act.noConfusion hstep
      | false =>
        injection hstep with h1 h2 h3
        subst h1
        subst h2
        subst h3
        show aacInv (aacChkK c st h0 fd L0 v) L
        rw [aacChkK]
        rcases hres : aacHeaderAt c v with ⟨res, c'⟩
        cases res with
        | none =>
          show (1 : Nat) ≤ L
          omega
        | some p =>
          show L0 ≤ L
          omega
    | accept0 h0 fd L0 => exact Act.noConfusion hstep
    | accept1 h0 fd => exact Act.noConfusion hstep
  · intro fl s n k L hstep hInv
    obtain ⟨c, st, ctrl⟩ := s
    cases ctrl with
    | sync => exact Act.noConfusion hstep
    | resync =>
      injection hstep with h1 h2
      subst h1
      subst h2
      exact ⟨hInv, trivial⟩
    | fetchFrame h0 L0 => exact Act.noConfusion hstep
    | haveFrame h0 fd L0 =>
      cases fl with
      | false => exact Act.noConfusion hstep
      | true =>
        injection hstep with h1 h2
        subst h1
        subst h2
        exact ⟨hInv, trivial⟩
    | accept0 h0 fd L0 =>
      injection hstep with h1 h2
      subst h1
      subst h2
      exact ⟨hInv, trivial⟩
    | accept1 h0 fd => exact Act.noConfusion hstep
  · intro fl s f k L hstep hInv
    obtain ⟨c, st, ctrl⟩ := s
    cases ctrl with
    | sync => exact Act.noConfusion hstep
    | resync => exact Act.noConfusion hstep
    | fetchFrame h0 L0 => exact Act.noConfusion hstep
    | haveFrame h0 fd L0 =>
      cases fl with
      | false => exact Act.noConfusion hstep
      | true => exact Act.noConfusion hstep
    | accept0 h0 fd L0 => exact Act.noConfusion hstep
    | accept1 h0 fd =>
      injection hstep with h1 h2
      subst h2
      exact trivial

theorem aacHeaderAt_pos (c : CacheState AACHeaderRec) (v : List Nat)
    {h : AACHeaderRec} {L : Nat} {c' : CacheState AACHeaderRec}
    (he : aacHeaderAt c v = (some (h, L), c')) : 1 ≤ L := by
  rw [aacHeaderAt, aacHeaderAtBytes] at he
  split at he
  · exact absurd he (by simp)
  · split at he
    · exact absurd he (by simp)
    · rename_i hz
      rw [Prod.mk.injEq, Option.some.injEq, Prod.mk.injEq] at he
      obtain ⟨⟨-, hL⟩, -⟩ := he
      omega

theorem aacStep_sync (hcb fl : Bool) (c : CacheState AACHeaderRec) (st : DriverStats) :
    (aacM hcb).step fl ⟨c, st, AACCtrl.sync⟩ = Act.read 7 0 (aacSyncK c st) := rfl

theorem aacStep_resync (hcb fl : Bool) (c : CacheState AACHeaderRec) (st : DriverStats) :
    (aacM hcb).step fl ⟨c, st, AACCtrl.resync⟩ = Act.incr 1 ⟨c, st, AACCtrl.sync⟩ := rfl

theorem aacStep_fetch (hcb fl : Bool) (c : CacheState AACHeaderRec) (st : DriverStats)
    (h : AACHeaderRec) (L : Nat) :
    (aacM hcb).step fl ⟨c, st, AACCtrl.fetchFrame h L⟩ =
      Act.read L 0 (aacFetchK c st h L) := rfl

theorem aacStep_have_flush (hcb : Bool) (c : CacheState AACHeaderRec) (st : DriverStats)
    (h : AACHeaderRec) (fd : List Nat) (L : Nat) :
    (aacM hcb).step true ⟨c, st, AACCtrl.haveFrame h fd L⟩ =
      Act.incr L ⟨HeaderCache.enable c, st, AACCtrl.accept1 h fd⟩ := rfl

theorem aacStep_accept0 (hcb fl : Bool) (c : CacheState AACHeaderRec) (st : DriverStats)
    (h : AACHeaderRec) (fd : List Nat) (L : Nat) :
    (aacM hcb).step fl ⟨c, st, AACCtrl.accept0 h fd L⟩ =
      Act.incr L ⟨c, st, AACCtrl.accept1 h fd⟩ := rfl

theorem aacStep_accept1 (hcb fl : Bool) (c : CacheState AACHeaderRec) (st : DriverStats)
    (h : AACHeaderRec) (fd : List Nat) :
    (aacM hcb).step fl ⟨c, st, AACCtrl.accept1 h fd⟩ =
      Act.emit (mapCodecFrameStats st ⟨fd, h.samples, (h.sampleRate : ℚ)⟩).2
        ⟨(HeaderCache.checkCodecUpdate c
            (mapCodecFrameStats st ⟨fd, h.samples, (h.sampleRate : ℚ)⟩).2.headerBitrate
            (mapCodecFrameStats st ⟨fd, h.samples, (h.sampleRate : ℚ)⟩).2.totalDuration).1,
          (mapCodecFrameStats st ⟨fd, h.samples, (h.sampleRate : ℚ)⟩).1,
          AACCtrl.sync⟩ := rfl

theorem aac_flush_from_sync (hcb : Bool) :
    ∀ (n : Nat) (buf : List Nat), buf.length ≤ n →
      ∀ (c : CacheState AACHeaderRec) (st : DriverStats),
        ∃ F fs, runFlush (aacM hcb) F buf ⟨c, st, AACCtrl.sync⟩ = some fs := by
  intro n
  induction n with
  | zero =>
    intro buf hlen c st
    refine ⟨1, [], ?_⟩
    exact runFlush_read_stop (aacM hcb) 0 buf _ (aacStep_sync hcb true c st) (by omega)
  | succ n ih =>
    intro buf hlen c st
    by_cases hbig : 7 + 0 < buf.length
    case neg =>
      refine ⟨1, [], ?_⟩
      exact runFlush_read_stop (aacM hcb) 0 buf _ (aacStep_sync hcb true c st) (by omega)
    case pos =>
      rcases hres : aacHeaderAt c buf with ⟨res, c'⟩
      cases res with
      | none =>
        obtain ⟨F, fs, hF⟩ := ih (buf.drop 1) (by rw [List.length_drop]; omega) c' st
        refine ⟨F + 3, fs, ?_⟩
        rw [runFlush_read_go (aacM hcb) (F + 2) buf ⟨c, st, AACCtrl.sync⟩
          (aacStep_sync hcb true c st) hbig]
        rw [List.drop_zero]
        have hsk : aacSyncK c st buf = ⟨c', st, AACCtrl.resync⟩ := by
          rw [aacSyncK, hres]
        rw [hsk]
        rw [runFlush_incr_eq (aacM hcb) (F + 1) buf ⟨c', st, AACCtrl.resync⟩
          (aacStep_resync hcb true c' st)]
        exact runFlush_mono (aacM hcb) (Nat.le_succ F) hF
      | some p =>
        obtain ⟨h, L⟩ := p
        have hL : 1 ≤ L := aacHeaderAt_pos c buf hres
        have hsk : aacSyncK c st buf = ⟨c', st, AACCtrl.fetchFrame h L⟩ := by
          rw [aacSyncK, hres]
        by_cases hfit : L + 0 < buf.length
        case neg =>
          refine ⟨2, [], ?_⟩
          rw [runFlush_read_go (aacM hcb) 1 buf ⟨c, st, AACCtrl.sync⟩
            (aacStep_sync hcb true c st) hbig]
          rw [List.drop_zero, hsk]
          exact runFlush_read_stop (aacM hcb) 0 buf _
            (aacStep_fetch hcb true c' st h L) (by omega)
        case pos =>
          obtain ⟨F, fs, hF⟩ := ih (buf.drop L) (by rw [List.length_drop]; omega)
            (HeaderCache.checkCodecUpdate (HeaderCache.enable c')
              (mapCodecFrameStats st
                ⟨buf.take L, h.samples, (h.sampleRate : ℚ)⟩).2.headerBitrate
              (mapCodecFrameStats st
                ⟨buf.take L, h.samples, (h.sampleRate : ℚ)⟩).2.totalDuration).1
            (mapCodecFrameStats st ⟨buf.take L, h.samples, (h.sampleRate : ℚ)⟩).1
          refine ⟨F + 5,
            (mapCodecFrameStats st ⟨buf.take L, h.samples, (h.sampleRate : ℚ)⟩).2 :: fs, ?_⟩
          rw [runFlush_read_go (aacM hcb) (F + 4) buf ⟨c, st, AACCtrl.sync⟩
            (aacStep_sync hcb true c st) hbig]
          rw [List.drop_zero, hsk]
          rw [runFlush_read_go (aacM hcb) (F + 3) buf ⟨c', st, AACCtrl.fetchFrame h L⟩
            (aacStep_fetch hcb true c' st h L) (by omega)]
          rw [List.drop_zero]
          rw [show aacFetchK c' st h L buf =
            ⟨c', st, AACCtrl.haveFrame h (buf.take L) L⟩ from rfl]
          rw [runFlush_incr_eq (aacM hcb) (F + 2) buf
            ⟨c', st, AACCtrl.haveFrame h (buf.take L) L⟩
            (aacStep_have_flush hcb c' st h (buf.take L) L)]
          rw [runFlush_emit_eq (aacM hcb) (F + 1) (buf.drop L)
            ⟨HeaderCache.enable c', st, AACCtrl.accept1 h (buf.take L)⟩
            (aacStep_accept1 hcb true (HeaderCache.enable c') st h (buf.take L))]
          rw [runFlush_mono (aacM hcb) (Nat.le_succ F) hF, Option.map_some']

theorem aac_flush_total (hcb : Bool) (buf : List Nat) (s : AACPState) :
    ∃ F fs, runFlush (aacM hcb) F buf s = some fs := by
  obtain ⟨c, st, ctrl⟩ := s
  cases ctrl with
  | sync => exact aac_flush_from_sync hcb buf.length buf le_rfl c st
  | resync =>
    obtain ⟨F, fs, hF⟩ :=
      aac_flush_from_sync hcb (buf.drop 1).length (buf.drop 1) le_rfl c st
    refine ⟨F + 2, fs, ?_⟩
    rw [runFlush_incr_eq (aacM hcb) (F + 1) buf ⟨c, st, AACCtrl.resync⟩
      (aacStep_resync hcb true c st)]
    exact runFlush_mono (aacM hcb) (Nat.le_succ F) hF
  | fetchFrame h L =>
    by_cases hfit : L + 0 < buf.length
    case neg =>
      refine ⟨1, [], ?_⟩
      exact runFlush_read_stop (aacM hcb) 0 buf _
        (aacStep_fetch hcb true c st h L) (by omega)
    case pos =>
      obtain ⟨F, fs, hF⟩ :=
        aac_flush_from_sync hcb (buf.drop L).length (buf.drop L) le_rfl
          (HeaderCache.checkCodecUpdate (HeaderCache.enable c)
            (mapCodecFrameStats st
              ⟨buf.take L, h.samples, (h.sampleRate : ℚ)⟩).2.headerBitrate
            (mapCodecFrameStats st
              ⟨buf.take L, h.samples, (h.sampleRate : ℚ)⟩).2.totalDuration).1
          (mapCodecFrameStats st ⟨buf.take L, h.samples, (h.sampleRate : ℚ)⟩).1
      refine ⟨F + 4,
        (mapCodecFrameStats st ⟨buf.take L, h.samples, (h.sampleRate : ℚ)⟩).2 :: fs, ?_⟩
      rw [runFlush_read_go (aacM hcb) (F + 3) buf ⟨c, st, AACCtrl.fetchFrame h L⟩
        (aacStep_fetch hcb true c st h L) hfit]
      rw [List.drop_zero]
      rw [show aacFetchK c st h L buf =
        ⟨c, st, AACCtrl.haveFrame h (buf.take L) L⟩ from rfl]
      rw [runFlush_incr_eq (aacM hcb) (F + 2) buf
        ⟨c, st, AACCtrl.haveFrame h (buf.take L) L⟩
        (aacStep_have_flush hcb c st h (buf.take L) L)]
      rw [runFlush_emit_eq (aacM hcb) (F + 1) (buf.drop L)
        ⟨HeaderCache.enable c, st, AACCtrl.accept1 h (buf.take L)⟩
        (aacStep_accept1 hcb true (HeaderCache.enable c) st h (buf.take L))]
      rw [runFlush_mono (aacM hcb) (Nat.le_succ F) hF, Option.map_some']
  | haveFrame h fd L =>
    obtain ⟨F, fs, hF⟩ :=
      aac_flush_from_sync hcb (buf.drop L).length (buf.drop L) le_rfl
        (HeaderCache.checkCodecUpdate (HeaderCache.enable c)
          (mapCodecFrameStats st ⟨fd, h.samples, (h.sampleRate : ℚ)⟩).2.headerBitrate
          (mapCodecFrameStats st ⟨fd, h.samples, (h.sampleRate : ℚ)⟩).2.totalDuration).1
        (mapCodecFrameStats st ⟨fd, h.samples, (h.sampleRate : ℚ)⟩).1
    refine ⟨F + 3,
      (mapCodecFrameStats st ⟨fd, h.samples, (h.sampleRate : ℚ)⟩).2 :: fs, ?_⟩
    rw [runFlush_incr_eq (aacM hcb) (F + 2) buf ⟨c, st, AACCtrl.haveFrame h fd L⟩
      (aacStep_have_flush hcb c st h fd L)]
    rw [runFlush_emit_eq (aacM hcb) (F + 1) (buf.drop L)
      ⟨HeaderCache.enable c, st, AACCtrl.accept1 h fd⟩
      (aacStep_accept1 hcb true (HeaderCache.enable c) st h fd)]
    rw [runFlush_mono (aacM hcb) (Nat.le_succ F) hF, Option.map_some']
  | accept0 h fd L =>
    obtain ⟨F, fs, hF⟩ :=
      aac_flush_from_sync hcb (buf.drop L).length (buf.drop L) le_rfl
        (HeaderCache.checkCodecUpdate c
          (mapCodecFrameStats st ⟨fd, h.samples, (h.sampleRate : ℚ)⟩).2.headerBitrate
          (mapCodecFrameStats st ⟨fd, h.samples, (h.sampleRate : ℚ)⟩).2.totalDuration).1
        (mapCodecFrameStats st ⟨fd, h.samples, (h.sampleRate : ℚ)⟩).1
    refine ⟨F + 3,
      (mapCodecFrameStats st ⟨fd, h.samples, (h.sampleRate : ℚ)⟩).2 :: fs, ?_⟩
    rw [runFlush_incr_eq (aacM hcb) (F + 2) buf ⟨c, st, AACCtrl.accept0 h fd L⟩
      (aacStep_accept0 hcb true c st h fd L)]
    rw [runFlush_emit_eq (aacM hcb) (F + 1) (buf.drop L)
      ⟨c, st, AACCtrl.accept1 h fd⟩
      (aacStep_accept1 hcb true c st h fd)]
    rw [runFlush_mono (aacM hcb) (Nat.le_succ F) hF, Option.map_some']
  | accept1 h fd =>
    obtain ⟨F, fs, hF⟩ :=
      aac_flush_from_sync hcb buf.length buf le_rfl
        (HeaderCache.checkCodecUpdate c
          (mapCodecFrameStats st ⟨fd, h.samples, (h.sampleRate : ℚ)⟩).2.headerBitrate
          (mapCodecFrameStats st ⟨fd, h.samples, (h.sampleRate : ℚ)⟩).2.totalDuration).1
        (mapCodecFrameStats st ⟨fd, h.samples, (h.sampleRate : ℚ)⟩).1
    refine ⟨F + 2,
      (mapCodecFrameStats st ⟨fd, h.samples, (h.sampleRate : ℚ)⟩).2 :: fs, ?_⟩
    rw [runFlush_emit_eq (aacM hcb) (F + 1) buf ⟨c, st, AACCtrl.accept1 h fd⟩
      (aacStep_accept1 hcb true c st h fd)]
    rw [runFlush_mono (aacM hcb) (Nat.le_succ F) hF, Option.map_some']

/-- C10: during `flush()` the AAC-instantiated driver always terminates:
from every driver suspension the drive loop yields finitely many frames
and returns (first conjunct, with an explicit fuel witness); a
`readRawData` that cannot be satisfied while flushing suspends yielding
`undefined`, which immediately ends the drive loop with no further
frames (second conjunct); and afterwards the driver is left reset, with
a fresh generator suspended on the initial `readRawData(7, 0)` over an
empty buffer and a fresh header cache (third conjunct). -/
theorem claim_C10_flush_terminates (hcb : Bool) (d : Drv AACPState) :
    (∃ F fs, flushM (aacM hcb) F d = some fs) ∧
    (∀ (F : Nat) (buf : List Nat) (s : AACPState) (m o : Nat) (k : List Nat → AACPState),
      (aacM hcb).step true s = Act.read m o k → buf.length ≤ m + o →
      runFlush (aacM hcb) (F + 1) buf s = some []) ∧
    (∀ (F : Nat) (fs : List CodecFrameOut) (d' : Drv AACPState),
      flushDrvM (aacM hcb) F d = some (fs, d') →
      d' = ⟨[], ⟨7, 0, aacSyncK (HeaderCache.init hcb) initDriverStats⟩⟩) := by
  refine ⟨?_, ?_, ?_⟩
  · obtain ⟨F, fs, hF⟩ := aac_flush_total hcb d.buf (d.sus.k (d.buf.drop d.sus.o))
    exact ⟨F, fs, hF⟩
  · intro F buf s m o k hstep hle
    exact runFlush_read_stop (aacM hcb) F buf s hstep hle
  · intro F fs d' h
    rw [flushDrvM, Option.bind_eq_some] at h
    obtain ⟨fs0, hflush, hmap⟩ := h
    rw [Option.map_eq_some'] at hmap
    obtain ⟨d0, hinit, heq⟩ := hmap
    rw [Prod.mk.injEq] at heq
    obtain ⟨-, hd'⟩ := heq
    subst hd'
    cases F with
    | zero => exact absurd hinit (by simp [initDrvM, runNF])
    | succ F =>
      rw [initDrvM] at hinit
      rw [runNF_read_stop (aacM hcb) F [] (aacM hcb).init
        (aacStep_sync hcb false (HeaderCache.init hcb) initDriverStats) (Nat.zero_le 7)]
        at hinit
      rw [Option.map_some', Option.some.injEq] at hinit
      exact hinit.symm

/-- Witness for C10: termination of `flush` from a concrete pending
driver state, and the immediate end of the drive loop on an unsatisfied
read over the empty buffer. -/
theorem claim_C10_witness :
    (∃ F fs, flushM (aacM true) F
        ⟨[255, 241], ⟨7, 0, aacSyncK (HeaderCache.init true) initDriverStats⟩⟩ =
        some fs) ∧
      runFlush (aacM true) 1 []
        ⟨HeaderCache.init true, initDriverStats, AACCtrl.sync⟩ = some [] := by
  refine ⟨(claim_C10_flush_terminates true
    ⟨[255, 241], ⟨7, 0, aacSyncK (HeaderCache.init true) initDriverStats⟩⟩).1, ?_⟩
  exact (claim_C10_flush_terminates true
    ⟨[255, 241], ⟨7, 0, aacSyncK (HeaderCache.init true) initDriverStats⟩⟩).2.1 0 []
    ⟨HeaderCache.init true, initDriverStats, AACCtrl.sync⟩ 7 0
    (aacSyncK (HeaderCache.init true) initDriverStats) rfl (by decide)

end CodecSpec
